import Mathlib

/-!
Shallow embedding of the go-scrape-danbooru scraper (the revision containing
`scrapeRange` / `scrapeBatch` / `requestPost` / `dbInsert` / `dbInsertTags`,
file `src/unnamed/part_001`), together with the relational data model fixed by
the repository's DDL (`src/unnamed/part_002`): tables `posts`, `tags`,
`tagged`, `pooled`, `favorites`.

Machine integers (Go `int`) are modelled as `Int`; no arithmetic here comes
near an overflow boundary.  Database statements are modelled as pure state
transitions on an explicit `Db` value plus a trace of executed statements;
externally caused failures (a `Begin`/`Prepare`/`Exec`/`Scan`/`Commit` call
failing at the driver level) are injected through an explicit oracle `Env`,
while constraint-driven outcomes (duplicate primary key, unique-name conflict,
foreign-key violation) are computed from the `Db` state itself, following the
DDL.  Within a transaction, per-statement failures are modelled as independent
(the code logs a failed statement and continues to the next one, then commits).
-/

/-!
## Range partitioning (`scrapeRange`, src/unnamed/part_001 lines 414-421)

The producer loop is
`for currentId := startId; currentId < stopId; currentId += dbooruLimit {
   currentStop := currentId + dbooruLimit
   if currentStop > stopId { currentStop = stopId }
   paramChannel <- intPair{currentId, currentStop} }`.
It is embedded with explicit fuel; `(stopId - startId).toNat` steps of fuel
always suffice because every iteration advances `currentId` by 20 ≥ 1.
-/

/-!
## Data model (struct `Post` and the DDL of src/unnamed/part_002)
-/

/-!
Go string helpers used by the persistence engine, implemented by structural
recursion on the character list (`String.data`) so that all definitions are
kernel-evaluable.  Tag names and relation tokens are handled as `List Char`.
-/

/-!
## Statement traces and the external-failure oracle
-/

/-!
## Persistence engine (`dbInsertTags` and `dbInsert`, src/unnamed/part_001)
-/

/-!
## Fetch client (`requestPost`, src/unnamed/part_001 lines 291-332)

The remote side is abstracted by `Resp`: whether `makeRequest` succeeded
(transport ok and status 200), whether the JSON decode succeeded, and the
contents the decoder left in its target variable (`p []Post` on the paged
path, `post Post` on the single-post path) when `Decode` returned — on
success the decoded value, on failure whatever the decoder wrote before
failing (for the freshly declared variables this is the zero value unless a
partial decode happened).
-/

/-- Server-imposed page limit, constant `dbooruLimit` in the source. -/
def dbooruLimit : Int := 20

/-- Tag category codes from the source's constant block. -/
def artist : String := "a"

/-- Tag category code for characters. -/
def character : String := "c"

/-- Tag category code for copyrights. -/
def copyright : String := "y"

/-- Tag category code for general tags. -/
def general : String := "g"

/-- One step of the job-producing loop of `scrapeRange`, with fuel. -/
def scrapeRangeLoop : Nat → Int → Int → List (Int × Int)
  | 0, _, _ => []
  | fuel + 1, currentId, stopId =>
    if currentId < stopId then
      let currentStop :=
        if currentId + dbooruLimit > stopId then stopId else currentId + dbooruLimit
      (currentId, currentStop) :: scrapeRangeLoop fuel (currentId + dbooruLimit) stopId
    else []

/-- The full sequence of sub-range jobs `scrapeRange` pushes into the channel. -/
def scrapeRangeJobs (startId stopId : Int) : List (Int × Int) :=
  scrapeRangeLoop (stopId - startId).toNat startId stopId

/-- The `Post` struct of the source; field order and names follow the Go code.
Go `int`/`int64` become `Int`. -/
structure Post where
  Id : Int := 0
  CreatedAt : String := ""
  UpdatedAt : String := ""
  UploaderId : Int := 0
  Score : Int := 0
  Source : String := ""
  Md5 : String := ""
  Rating : String := ""
  ImageWidth : Int := 0
  ImageHeight : Int := 0
  FileExt : String := ""
  ParentId : Int := 0
  HasChildren : Bool := false
  FileSize : Int := 0
  FavString : String := ""
  PoolString : String := ""
  UpScore : Int := 0
  DownScore : Int := 0
  IsPending : Bool := false
  IsFlagged : Bool := false
  IsDeleted : Bool := false
  IsBanned : Bool := false
  PixivId : Int := 0
  BitFlags : Int := 0
  TagStringArtist : String := ""
  TagStringCharacter : String := ""
  TagStringCopyright : String := ""
  TagStringGeneral : String := ""
  FileUrl : String := ""
deriving DecidableEq, Repr

/-- Go `strings.TrimSpace`: strip leading and trailing whitespace. -/
def trimSpace (cs : List Char) : List Char :=
  ((cs.dropWhile Char.isWhitespace).reverse.dropWhile Char.isWhitespace).reverse

/-- Go `strings.Split(s, " ")`: split on every single space, keeping empty
tokens. -/
def splitSp : List Char → List (List Char)
  | [] => [[]]
  | c :: rest =>
    if c = ' ' then [] :: splitSp rest
    else
      match splitSp rest with
      | [] => [[c]]
      | t :: ts => (c :: t) :: ts

/-- Go `strings.TrimPrefix(s, pre)`: drop `pre` if it is a leading part of
`s`, else return `s` unchanged. -/
def trimPrefC (s pre : List Char) : List Char :=
  if pre.isPrefixOf s then s.drop pre.length else s

/-- Digit-string value, `none` unless nonempty and all decimal digits. -/
def natDigits (cs : List Char) : Option Nat :=
  if cs = [] then none
  else if cs.all Char.isDigit then
    some (cs.foldl (fun acc c => acc * 10 + (c.toNat - Char.toNat '0')) 0)
  else none

/-- Go `strconv.Atoi`: optional sign, then decimal digits, else an error. -/
def atoi (cs : List Char) : Option Int :=
  match cs with
  | '+' :: rest => (natDigits rest).map (fun n => (n : Int))
  | '-' :: rest => (natDigits rest).map (fun n => -(n : Int))
  | _ => (natDigits cs).map (fun n => (n : Int))

/-- A row of the `tags` table: serial id, unique name, category char. -/
structure Tag where
  id : Int
  name : List Char
  category : String
deriving DecidableEq, Repr

/-- The relational store: tables `posts` (PK id), `tags` (serial PK, unique
name), `tagged` (PK (tag_id, post_id), FKs to tags and posts), `favorites`
(PK (user_id, post_id), FK to posts) and `pooled` (PK (pool_id, post_id),
FK to posts), as declared in the DDL.  `nextTagId` is the state of the
`tags_id_seq` sequence. -/
structure Db where
  posts : List Post := []
  tags : List Tag := []
  nextTagId : Int := 1
  tagged : List (Int × Int) := []
  favorites : List (Int × Int) := []
  pooled : List (Int × Int) := []
deriving DecidableEq, Repr

/-- The empty database. -/
def emptyDb : Db := {}

/-- Does a `posts` row with this id exist? -/
def Db.hasPost (db : Db) (postId : Int) : Bool :=
  db.posts.any (fun q => q.Id == postId)

/-- Does a `tags` row with this name exist? -/
def Db.hasTagName (db : Db) (name : List Char) : Bool :=
  db.tags.any (fun tg => tg.name == name)

/-- The query `SELECT id FROM tags WHERE name = $1`. -/
def Db.lookupTag (db : Db) (name : List Char) : Option Int :=
  (db.tags.find? (fun tg => tg.name == name)).map Tag.id

/-- `INSERT INTO posts VALUES (...)` — no conflict clause, so a row with a
duplicate id is a duplicate-key error (the returned Bool is the error flag). -/
def Db.insertPost (db : Db) (p : Post) : Db × Bool :=
  if db.hasPost p.Id then (db, true)
  else ({ db with posts := db.posts ++ [p] }, false)

/-- `INSERT INTO tags(name, category) VALUES ($1, $2) ON CONFLICT DO NOTHING`.
A name conflict is a no-op (never an error); the serial sequence advances on
every attempt, as Postgres sequences do. -/
def Db.insertTag (db : Db) (name : List Char) (category : String) : Db :=
  if db.hasTagName name then { db with nextTagId := db.nextTagId + 1 }
  else
    { db with
      tags := db.tags ++ [⟨db.nextTagId, name, category⟩],
      nextTagId := db.nextTagId + 1 }

/-- `INSERT INTO tagged VALUES ($1, $2) ON CONFLICT DO NOTHING`.  A missing
referenced tag or post row is a foreign-key error (flag `true`); an existing
edge is a no-op. -/
def Db.insertTagged (db : Db) (tagId postId : Int) : Db × Bool :=
  if !(db.tags.any (fun tg => tg.id == tagId)) || !(db.hasPost postId) then (db, true)
  else if (tagId, postId) ∈ db.tagged then (db, false)
  else ({ db with tagged := db.tagged ++ [(tagId, postId)] }, false)

/-- `INSERT INTO favorites VALUES ($1, $2) ON CONFLICT DO NOTHING`. -/
def Db.insertFav (db : Db) (userId postId : Int) : Db × Bool :=
  if !(db.hasPost postId) then (db, true)
  else if (userId, postId) ∈ db.favorites then (db, false)
  else ({ db with favorites := db.favorites ++ [(userId, postId)] }, false)

/-- `INSERT INTO pooled VALUES ($1, $2) ON CONFLICT DO NOTHING`. -/
def Db.insertPool (db : Db) (poolId postId : Int) : Db × Bool :=
  if !(db.hasPost postId) then (db, true)
  else if (poolId, postId) ∈ db.pooled then (db, false)
  else ({ db with pooled := db.pooled ++ [(poolId, postId)] }, false)

/-- Well-formedness of the store: the primary keys of all five tables hold. -/
def Db.Wf (db : Db) : Prop :=
  (db.posts.map Post.Id).Nodup ∧ (db.tags.map Tag.name).Nodup ∧
  db.tagged.Nodup ∧ db.favorites.Nodup ∧ db.pooled.Nodup

instance (db : Db) : Decidable db.Wf := by
  unfold Db.Wf
  infer_instance

/-- The four `db.Begin()` call sites in the persistence code. -/
inductive TxSite where
  | tagsNames
  | tagsEdges
  | favs
  | pools
deriving DecidableEq, Repr

/-- One database interaction executed by the code.  `failed` records whether
the database reported an error for that statement. -/
inductive Op where
  | txBegin (s : TxSite)
  | txCommit (s : TxSite)
  | execInsertPost (postId : Int) (failed : Bool)
  | execInsertTag (name : List Char) (category : String) (failed : Bool)
  | queryTagId (name : List Char)
  | execInsertTagged (tagId postId : Int) (failed : Bool)
  | execInsertFav (userId postId : Int) (failed : Bool)
  | execInsertPool (poolId postId : Int) (failed : Bool)
deriving DecidableEq, Repr

/-- Arguments of a `tagged`-edge insert, if the op is one. -/
def Op.taggedArgs : Op → Option (Int × Int)
  | .execInsertTagged a b _ => some (a, b)
  | _ => none

/-- Is this op a `Begin` at the given site? -/
def Op.isBeginAt (s : TxSite) : Op → Bool
  | .txBegin s' => s' == s
  | _ => false

/-- Is this op a `Commit` at the given site? -/
def Op.isCommitAt (s : TxSite) : Op → Bool
  | .txCommit s' => s' == s
  | _ => false

/-- Is this op an insert into `favorites`? -/
def Op.isFavExec : Op → Bool
  | .execInsertFav _ _ _ => true
  | _ => false

/-- Is this op an insert into `pooled`? -/
def Op.isPoolExec : Op → Bool
  | .execInsertPool _ _ _ => true
  | _ => false

/-- External-failure oracle: which driver-level calls fail for reasons outside
the database state (connection loss, etc.).  Per-loop oracles are indexed by
the iteration counter.  All fields default to "succeeds". -/
structure Env where
  postExecFails : Bool := false
  tagsBegin1Ok : Bool := true
  tagsPrepInsOk : Bool := true
  tagExecFails : Nat → Bool := fun _ => false
  tagsCommit1Ok : Bool := true
  tagsBegin2Ok : Bool := true
  tagsPrepQueryOk : Bool := true
  tagsPrepEdgeOk : Bool := true
  lookupFails : Nat → Bool := fun _ => false
  edgeExecFails : Nat → Bool := fun _ => false
  tagsCommit2Ok : Bool := true
  favBeginOk : Bool := true
  favPrepOk : Bool := true
  favExecFails : Nat → Bool := fun _ => false
  favCommitOk : Bool := true
  poolBeginOk : Bool := true
  poolPrepOk : Bool := true
  poolExecFails : Nat → Bool := fun _ => false
  poolCommitOk : Bool := true

/-- The oracle under which no driver-level call fails. -/
def happyEnv : Env := {}

/-- The first loop of `dbInsertTags`: `for _, t := range tagSplit {
tagInsert.Exec(t, category)}`, inside the first transaction.  A failed exec is
logged and the loop continues. -/
def tagInsertLoop (env : Env) (category : String) (i : Nat) (ts : List (List Char))
    (st : Db) : Db × List Op :=
  match ts with
  | [] => (st, [])
  | t :: rest =>
    let st1 := if env.tagExecFails i then st else st.insertTag t category
    let r := tagInsertLoop env category (i + 1) rest st1
    (r.1, Op.execInsertTag t category (env.tagExecFails i) :: r.2)

/-- The second loop of `dbInsertTags`: per tag, `var tagId int;
tagQuery.QueryRow(t).Scan(&tagId)` — a failed scan leaves `tagId` at its zero
value 0 because the variable is redeclared every iteration — then
`taggedInsert.Exec(tagId, postId)`. -/
def tagEdgeLoop (env : Env) (postId : Int) (i : Nat) (ts : List (List Char))
    (st : Db) : Db × List Op :=
  match ts with
  | [] => (st, [])
  | t :: rest =>
    let tagId : Int := if env.lookupFails i then 0 else (st.lookupTag t).getD 0
    let st1 := if env.edgeExecFails i then st else (st.insertTagged tagId postId).1
    let failed := if env.edgeExecFails i then true else (st.insertTagged tagId postId).2
    let r := tagEdgeLoop env postId (i + 1) rest st1
    (r.1, Op.queryTagId t :: Op.execInsertTagged tagId postId failed :: r.2)

/-- Body of the first `dbInsertTags` transaction: the name-insert loop when
`Prepare` succeeded, a skipped loop otherwise (the commit still runs). -/
def tagsTx1 (env : Env) (category : String) (tagSplit : List (List Char)) (db : Db) :
    Db × List Op :=
  if env.tagsPrepInsOk then tagInsertLoop env category 0 tagSplit db else (db, [])

/-- Body of the second `dbInsertTags` transaction: the lookup-and-edge loop
when both `Prepare` calls succeeded, a skipped loop otherwise. -/
def tagsTx2 (env : Env) (postId : Int) (tagSplit : List (List Char)) (db1 : Db) :
    Db × List Op :=
  if env.tagsPrepQueryOk && env.tagsPrepEdgeOk then tagEdgeLoop env postId 0 tagSplit db1
  else (db1, [])

/-- Trace of the first `dbInsertTags` transaction (begin, loop, commit). -/
def tagsTr1 (env : Env) (tags category : String) (db : Db) : List Op :=
  Op.txBegin TxSite.tagsNames :: (tagsTx1 env category (splitSp tags.data) db).2 ++
    [Op.txCommit TxSite.tagsNames]

/-- Trace of the second `dbInsertTags` transaction. -/
def tagsTr2 (env : Env) (tags category : String) (postId : Int) (db : Db) : List Op :=
  Op.txBegin TxSite.tagsEdges ::
    (tagsTx2 env postId (splitSp tags.data)
      (tagsTx1 env category (splitSp tags.data) db).1).2 ++
    [Op.txCommit TxSite.tagsEdges]

/-- `dbInsertTags(tags, category, postId, db)`: skip entirely when the string
trims to empty; otherwise insert the names in a first transaction, commit,
then resolve ids and insert the edges in a second transaction, commit.  A
failed `Begin` or `Commit` is logged and aborts the function (a failed commit
rolls the transaction back); a failed `Prepare` only skips the loop, the
commit still runs. -/
def dbInsertTags (env : Env) (tags category : String) (postId : Int) (db : Db) :
    Db × List Op :=
  if trimSpace tags.data = [] then (db, [])
  else if env.tagsBegin1Ok = false then (db, [])
  else if env.tagsCommit1Ok = false then (db, tagsTr1 env tags category db)
  else if env.tagsBegin2Ok = false then
    ((tagsTx1 env category (splitSp tags.data) db).1, tagsTr1 env tags category db)
  else
    ((if env.tagsCommit2Ok then
        (tagsTx2 env postId (splitSp tags.data)
          (tagsTx1 env category (splitSp tags.data) db).1).1
      else (tagsTx1 env category (splitSp tags.data) db).1),
      tagsTr1 env tags category db ++ tagsTr2 env tags category postId db)

/-- The favorites loop of `dbInsert`: tokens whose `fav:`-stripped remainder
fails `strconv.Atoi` are skipped silently; parsed ids are inserted. -/
def favLoop (env : Env) (postId : Int) (i : Nat) (toks : List (List Char))
    (st : Db) : Db × List Op :=
  match toks with
  | [] => (st, [])
  | tok :: rest =>
    match atoi (trimPrefC tok "fav:".data) with
    | none => favLoop env postId (i + 1) rest st
    | some userId =>
      let st1 := if env.favExecFails i then st else (st.insertFav userId postId).1
      let failed := if env.favExecFails i then true else (st.insertFav userId postId).2
      let r := favLoop env postId (i + 1) rest st1
      (r.1, Op.execInsertFav userId postId failed :: r.2)

/-- The pools loop of `dbInsert`, same shape as `favLoop` with `pool:`. -/
def poolLoop (env : Env) (postId : Int) (i : Nat) (toks : List (List Char))
    (st : Db) : Db × List Op :=
  match toks with
  | [] => (st, [])
  | tok :: rest =>
    match atoi (trimPrefC tok "pool:".data) with
    | none => poolLoop env postId (i + 1) rest st
    | some poolId =>
      let st1 := if env.poolExecFails i then st else (st.insertPool poolId postId).1
      let failed := if env.poolExecFails i then true else (st.insertPool poolId postId).2
      let r := poolLoop env postId (i + 1) rest st1
      (r.1, Op.execInsertPool poolId postId failed :: r.2)

/-- Sequencing of two database steps: run the second from the first's state
and append the traces. -/
def seqOp (r : Db × List Op) (f : Db → Db × List Op) : Db × List Op :=
  ((f r.1).1, r.2 ++ (f r.1).2)

/-- The four `dbInsertTags` calls of `dbInsert`, in source order. -/
def dbTags4 (env : Env) (p : Post) (db0 : Db) : Db × List Op :=
  seqOp (seqOp (seqOp (seqOp (db0, [])
    (dbInsertTags env p.TagStringArtist artist p.Id))
    (dbInsertTags env p.TagStringCharacter character p.Id))
    (dbInsertTags env p.TagStringCopyright copyright p.Id))
    (dbInsertTags env p.TagStringGeneral general p.Id)

/-- Body of the favorites transaction: the favorites loop when `Prepare`
succeeded, a skipped loop otherwise. -/
def favTx (env : Env) (p : Post) (db4 : Db) : Db × List Op :=
  if env.favPrepOk then favLoop env p.Id 0 (splitSp p.FavString.data) db4 else (db4, [])

/-- State after the favorites transaction's `Commit()` (whose error the code
ignores): the staged state if the commit succeeded, the rollback otherwise. -/
def favCommitted (env : Env) (p : Post) (db4 : Db) : Db :=
  if env.favCommitOk then (favTx env p db4).1 else db4

/-- Trace of the favorites transaction. -/
def favTrace (env : Env) (p : Post) (db4 : Db) : List Op :=
  Op.txBegin TxSite.favs :: (favTx env p db4).2 ++ [Op.txCommit TxSite.favs]

/-- Body of the pools transaction. -/
def poolTx (env : Env) (p : Post) (db5 : Db) : Db × List Op :=
  if env.poolPrepOk then poolLoop env p.Id 0 (splitSp p.PoolString.data) db5 else (db5, [])

/-- State after the pools transaction's final `Commit()` (error ignored). -/
def poolCommitted (env : Env) (p : Post) (db5 : Db) : Db :=
  if env.poolCommitOk then (poolTx env p db5).1 else db5

/-- Trace of the pools transaction. -/
def poolTrace (env : Env) (p : Post) (db5 : Db) : List Op :=
  Op.txBegin TxSite.pools :: (poolTx env p db5).2 ++ [Op.txCommit TxSite.pools]

/-- The favorites-and-pools section of `dbInsert`: skipped entirely when both
strings trim to empty; the favorites transaction runs first (its `Commit()`
error is ignored and does not stop the pools), then the pools transaction
(whose failed `Begin` returns early). -/
def dbInsertRel (env : Env) (p : Post) (db4 : Db) : Db × List Op :=
  if (trimSpace p.FavString.data).isEmpty && (trimSpace p.PoolString.data).isEmpty then
    (db4, [])
  else if env.favBeginOk = false then (db4, [])
  else if env.poolBeginOk = false then
    (favCommitted env p db4, favTrace env p db4)
  else
    (poolCommitted env p (favCommitted env p db4),
      favTrace env p db4 ++ poolTrace env p (favCommitted env p db4))

/-- `dbInsert(p, db)`: insert the post row (no conflict clause — on error log
and return); call `dbInsertTags` for the four category strings; then run the
favorites-and-pools section. -/
def dbInsert (env : Env) (p : Post) (db : Db) : Db × List Op :=
  if env.postExecFails || (db.insertPost p).2 then (db, [Op.execInsertPost p.Id true])
  else
    ((dbInsertRel env p (dbTags4 env p (db.insertPost p).1).1).1,
      Op.execInsertPost p.Id false :: (dbTags4 env p (db.insertPost p).1).2 ++
        (dbInsertRel env p (dbTags4 env p (db.insertPost p).1).1).2)

/-- Abstraction of one remote HTTP interaction as observed by `requestPost`. -/
structure Resp where
  httpOk : Bool
  decodeOk : Bool
  listAfter : List Post := []
  singleAfter : Post := {}
deriving Repr

/-- The trailing-trim of `requestPost`: `pLen := len(p); for i := range p {
if p[i].Id < startId { pLen = i; break } }; return p[:pLen]`. -/
def trimPosts (startId : Int) (p : List Post) : List Post :=
  p.take (p.findIdx (fun q => q.Id < startId))

/-- `requestPost(startId, stopId, client, auth)`.  `none` models the
`log.Fatalf` process abort on a batch wider than the hard limit; otherwise
the returned post list.  On the single-post path (`startId == stopId`) the
decoded value is appended to `p` before the decode error is checked, and the
trim loop is skipped when decoding failed. -/
def requestPost (r : Resp) (startId stopId : Int) : Option (List Post) :=
  if stopId - startId > dbooruLimit then none
  else some <|
    if r.httpOk = false then []
    else if startId = stopId then
      let p := [r.singleAfter]
      if r.decodeOk = false then p else trimPosts startId p
    else
      let p := r.listAfter
      if r.decodeOk = false then p else trimPosts startId p

/-- `scrapeBatch(startId, stopId, ...)`: fatal (`none`) if `startId > stopId`
or if `requestPost` hits its fatal check; otherwise `dbInsert` every returned
post in order (file saving is an independent side effect, not modelled). -/
def scrapeBatch (env : Env) (r : Resp) (startId stopId : Int) (db : Db) :
    Option (Db × List Op) :=
  if startId > stopId then none
  else
    match requestPost r startId stopId with
    | none => none
    | some ps =>
      some (ps.foldl
        (fun acc p =>
          let rI := dbInsert env p acc.1
          (rI.1, acc.2 ++ rI.2))
        (db, []))

/-- Posts used in the concrete trimming scenario of C3 and C9. -/
def postWithId (n : Int) : Post := { Id := n }

/-- The descending-ID paged response `[55, 54, 53, 52, 51]`. -/
def respDescending : Resp :=
  { httpOk := true, decodeOk := true,
    listAfter := [postWithId 55, postWithId 54, postWithId 53, postWithId 52, postWithId 51] }

/-- An out-of-order paged response, IDs `[55, 10, 54]`. -/
def respOutOfOrder : Resp :=
  { httpOk := true, decodeOk := true,
    listAfter := [postWithId 55, postWithId 10, postWithId 54] }

/-- The zero value of the `Post` struct, what `var post Post` declares. -/
def zeroPost : Post := {}

/-- A response whose HTTP exchange succeeded but whose JSON body fails to
decode. -/
def respDecodeFail : Resp := { httpOk := true, decodeOk := false }

/-- A failed HTTP exchange (transport error or non-200 status). -/
def respHttpFail : Resp := { httpOk := false, decodeOk := false }

/-- The tag tokens a category string contributes: none when the string trims
to empty (the `dbInsertTags` guard), else the space-split tokens. -/
def tokensOf (s : String) : List (List Char) :=
  if trimSpace s.data = [] then [] else splitSp s.data

/-- All tag tokens of a post across the four category strings. -/
def allTagTokens (p : Post) : List (List Char) :=
  tokensOf p.TagStringArtist ++ tokensOf p.TagStringCharacter ++
    tokensOf p.TagStringCopyright ++ tokensOf p.TagStringGeneral

/-- The user ids parsed from a favorites string by the favorites loop. -/
def favTokenIds (s : String) : List Int :=
  (splitSp s.data).filterMap (fun tok => atoi (trimPrefC tok "fav:".data))

/-- The pool ids parsed from a pool string by the pools loop. -/
def poolTokenIds (s : String) : List Int :=
  (splitSp s.data).filterMap (fun tok => atoi (trimPrefC tok "pool:".data))

/-- The user ids whose favorite edge `dbInsert` attempts for a post (none when
the whole relation section is skipped). -/
def favIds (p : Post) : List Int :=
  if (trimSpace p.FavString.data).isEmpty && (trimSpace p.PoolString.data).isEmpty then []
  else favTokenIds p.FavString

/-- The pool ids whose pooled edge `dbInsert` attempts for a post. -/
def poolIds (p : Post) : List Int :=
  if (trimSpace p.FavString.data).isEmpty && (trimSpace p.PoolString.data).isEmpty then []
  else poolTokenIds p.PoolString

/-- Ops that can occur inside `dbInsertTags`. -/
def isTagSectionOp : Op → Bool
  | .execInsertTag _ _ _ => true
  | .queryTagId _ => true
  | .execInsertTagged _ _ _ => true
  | .txBegin .tagsNames => true
  | .txBegin .tagsEdges => true
  | .txCommit .tagsNames => true
  | .txCommit .tagsEdges => true
  | _ => false

/-- Number of `Commit` calls issued at the favorites and pools sites. -/
def favPoolCommitCount (tr : List Op) : Nat :=
  tr.countP (fun o => o.isCommitAt TxSite.favs || o.isCommitAt TxSite.pools)

/-- Number of `Begin` calls issued at the favorites and pools sites. -/
def favPoolBeginCount (tr : List Op) : Nat :=
  tr.countP (fun o => o.isBeginAt TxSite.favs || o.isBeginAt TxSite.pools)

/-- A post with tags, a favoriting user and a pool, used as concrete input. -/
def pC2 : Post :=
  { Id := 1, TagStringArtist := "aaa", TagStringGeneral := "bbb ccc",
    FavString := "fav:7", PoolString := "pool:9" }

/-- A post with only relation strings, used for the C7 counterexample. -/
def pFav : Post := { Id := 1, FavString := "fav:7", PoolString := "pool:9" }

/-- A post whose favorites and pool strings trim to empty. -/
def pNoRel : Post := { Id := 4, TagStringArtist := "xx", FavString := " " }

/-- A post with id 5 and nothing else, used as pre-existing db content. -/
def post5 : Post := { Id := 5 }

/-- A database already containing the post row with id 5. -/
def dbPost5 : Db := { posts := [post5] }

/-- A database with post 5 and two tag rows, ids 7 and 9. -/
def dbTwoTags : Db :=
  { posts := [post5],
    tags := [⟨7, "aaa".data, "g"⟩, ⟨9, "bbb".data, "g"⟩],
    nextTagId := 10 }

/-- Oracle failing exactly the first tagged-edge insert. -/
def envEdgeFail0 : Env := { edgeExecFails := fun j => j == 0 }

/-- Oracle failing exactly the second tag-id lookup. -/
def envLookupFail1 : Env := { lookupFails := fun j => j == 1 }

theorem scrapeRangeLoop_mem (fuel : Nat) (c t : Int) (hfuel : (t - c).toNat ≤ fuel) :
    ∀ j ∈ scrapeRangeLoop fuel c t, c ≤ j.1 ∧ j.1 < j.2 ∧ j.2 ≤ t ∧ j.2 - j.1 ≤ dbooruLimit := by
  induction fuel generalizing c with
  | zero =>
    intro j hj
    simp [scrapeRangeLoop] at hj
  | succ n ih =>
    intro j hj
    rw [scrapeRangeLoop] at hj
    by_cases hct : c < t
    · rw [if_pos hct] at hj
      rcases List.mem_cons.mp hj with h | h
      · subst h
        simp only [dbooruLimit]
        split <;> omega
      · have hrec := ih (c + dbooruLimit) (by simp [dbooruLimit] at *; omega) j h
        simp [dbooruLimit] at *
        omega
    · rw [if_neg hct] at hj
      exact absurd hj (List.not_mem_nil j)

theorem scrapeRangeLoop_pairwise (fuel : Nat) (c t : Int) (hfuel : (t - c).toNat ≤ fuel) :
    (scrapeRangeLoop fuel c t).Pairwise (fun a b => a.2 ≤ b.1) := by
  induction fuel generalizing c with
  | zero => simp [scrapeRangeLoop]
  | succ n ih =>
    rw [scrapeRangeLoop]
    by_cases hct : c < t
    · rw [if_pos hct]
      refine List.Pairwise.cons ?_ (ih (c + dbooruLimit) (by simp [dbooruLimit] at *; omega))
      intro b hb
      have hmem := scrapeRangeLoop_mem n (c + dbooruLimit) t
        (by simp [dbooruLimit] at *; omega) b hb
      simp only at hmem ⊢
      simp [dbooruLimit] at *
      split <;> omega
    · rw [if_neg hct]
      exact List.Pairwise.nil

theorem scrapeRangeLoop_cover (fuel : Nat) (c t : Int) (hfuel : (t - c).toNat ≤ fuel)
    (x : Int) :
    (∃ j ∈ scrapeRangeLoop fuel c t, j.1 ≤ x ∧ x < j.2) ↔ (c ≤ x ∧ x < t) := by
  induction fuel generalizing c with
  | zero =>
    simp only [scrapeRangeLoop, List.not_mem_nil, false_and, exists_false, false_iff]
    omega
  | succ n ih =>
    rw [scrapeRangeLoop]
    by_cases hct : c < t
    · rw [if_pos hct]
      have hrec := ih (c + dbooruLimit) (by simp [dbooruLimit] at *; omega)
      constructor
      · rintro ⟨j, hj, hx1, hx2⟩
        rcases List.mem_cons.mp hj with h | h
        · subst h
          simp only at hx1 hx2
          simp [dbooruLimit] at *
          split at hx2 <;> omega
        · have := hrec.mp ⟨j, h, hx1, hx2⟩
          simp [dbooruLimit] at *
          omega
      · rintro ⟨hcx, hxt⟩
        by_cases hsplit : x < (if c + dbooruLimit > t then t else c + dbooruLimit)
        · exact ⟨(c, if c + dbooruLimit > t then t else c + dbooruLimit),
            List.mem_cons_self _ _, hcx, hsplit⟩
        · have hx20 : c + dbooruLimit ≤ x := by
            simp [dbooruLimit] at *
            split at hsplit <;> omega
          obtain ⟨j, hj, h1, h2⟩ := hrec.mpr ⟨hx20, hxt⟩
          exact ⟨j, List.mem_cons_of_mem _ hj, h1, h2⟩
    · rw [if_neg hct]
      simp only [List.not_mem_nil, false_and, exists_false, false_iff]
      omega

theorem scrapeRangeLoop_get (fuel : Nat) (c t : Int) (hfuel : (t - c).toNat ≤ fuel)
    (k : Nat) :
    (scrapeRangeLoop fuel c t).get? k =
      if c + dbooruLimit * k < t then
        some (c + dbooruLimit * k, min (c + dbooruLimit * (k + 1)) t)
      else none := by
  induction fuel generalizing c k with
  | zero =>
    simp only [scrapeRangeLoop, List.get?_nil]
    have : ¬ c + dbooruLimit * (k : Int) < t := by
      simp [dbooruLimit] at *
      omega
    rw [if_neg this]
  | succ n ih =>
    rw [scrapeRangeLoop]
    by_cases hct : c < t
    · rw [if_pos hct]
      cases k with
      | zero =>
        simp only [List.get?_cons_zero, Nat.cast_zero, mul_zero, add_zero, if_pos hct,
          mul_one]
        congr 2
        simp [dbooruLimit]
        omega
      | succ m =>
        simp only [List.get?_cons_succ]
        rw [ih (c + dbooruLimit) (by simp [dbooruLimit] at *; omega) m]
        have h1 : c + dbooruLimit + dbooruLimit * (m : Int) = c + dbooruLimit * ((m : Int) + 1) := by
          ring
        have h2 : c + dbooruLimit + dbooruLimit * ((m : Int) + 1) = c + dbooruLimit * ((m : Int) + 1 + 1) := by
          ring
        push_cast
        rw [h1, h2]
    · rw [if_neg hct]
      simp only [List.get?_nil]
      have : ¬ c + dbooruLimit * (k : Int) < t := by
        simp [dbooruLimit] at *
        omega
      rw [if_neg this]

/-- C1: for `startId ≤ stopId` and limit 20 the jobs produced by `scrapeRange`'s
partitioning loop are exactly the half-open intervals
`[startId + 20k, min (startId + 20(k+1)) stopId)` in ascending order: they are
contiguous and non-overlapping, cover exactly `[startId, stopId)`, each is
nonempty of width ≤ 20, and in particular `[1, 41)` yields `[(1,21),(21,41)]`
and `[20, 40)` yields `[(20,40)]`. -/
theorem scrapeRange_partition_correct (startId stopId : Int) (h : startId ≤ stopId) :
    (∀ k : Nat, (scrapeRangeJobs startId stopId).get? k =
      if startId + dbooruLimit * k < stopId then
        some (startId + dbooruLimit * k, min (startId + dbooruLimit * (k + 1)) stopId)
      else none) ∧
    (∀ j ∈ scrapeRangeJobs startId stopId,
      startId ≤ j.1 ∧ j.1 < j.2 ∧ j.2 ≤ stopId ∧ j.2 - j.1 ≤ dbooruLimit) ∧
    (scrapeRangeJobs startId stopId).Pairwise (fun a b => a.2 ≤ b.1) ∧
    (∀ x : Int, (∃ j ∈ scrapeRangeJobs startId stopId, j.1 ≤ x ∧ x < j.2) ↔
      (startId ≤ x ∧ x < stopId)) ∧
    scrapeRangeJobs 1 41 = [(1, 21), (21, 41)] ∧
    scrapeRangeJobs 20 40 = [(20, 40)] := by
  refine ⟨fun k => scrapeRangeLoop_get _ _ _ le_rfl k,
    scrapeRangeLoop_mem _ _ _ le_rfl,
    scrapeRangeLoop_pairwise _ _ _ le_rfl,
    fun x => scrapeRangeLoop_cover _ _ _ le_rfl x, ?_, ?_⟩ <;> decide

/-- Witness for C1 at the concrete range `[1, 41)`. -/
theorem scrapeRange_partition_correct_witness :
    (1 : Int) ≤ 41 ∧ scrapeRangeJobs 1 41 = [(1, 21), (21, 41)] :=
  ⟨by decide, (scrapeRange_partition_correct 1 41 (by decide)).2.2.2.2.1⟩

theorem trimPosts_eq_takeWhile (startId : Int) (p : List Post) :
    trimPosts startId p = p.takeWhile (fun q => decide (startId ≤ q.Id)) := by
  induction p with
  | nil => rfl
  | cons q rest ih =>
    by_cases hq : q.Id < startId
    · have h1 : (rest.findIdx (fun q => q.Id < startId) : Nat) = rest.findIdx (fun q => q.Id < startId) := rfl
      simp [trimPosts, List.findIdx_cons, List.takeWhile_cons, hq, not_le.mpr hq]
    · simp only [trimPosts, List.findIdx_cons, decide_eq_true_eq] at *
      simp [hq, List.takeWhile_cons, not_lt.mp hq, ih]

theorem takeWhile_eq_filter_of_sorted {startId : Int} {p : List Post}
    (hs : p.Pairwise (fun a b => b.Id ≤ a.Id)) :
    p.takeWhile (fun q => decide (startId ≤ q.Id)) =
      p.filter (fun q => decide (startId ≤ q.Id)) := by
  induction p with
  | nil => rfl
  | cons q rest ih =>
    rcases List.pairwise_cons.mp hs with ⟨hhead, htail⟩
    by_cases hq : startId ≤ q.Id
    · simp [List.takeWhile_cons, List.filter_cons, hq, ih htail]
    · have hrest : rest.filter (fun q => decide (startId ≤ q.Id)) = [] := by
        apply List.filter_eq_nil_iff.mpr
        intro a ha
        have := hhead a ha
        simp only [decide_eq_true_eq]
        omega
      simp [List.takeWhile_cons, List.filter_cons, hq, hrest]

/-- C3: within the width limit, on the paged path with a successful fetch and
decode, if the decoded response is sorted in descending ID order then
`requestPost` returns exactly the posts with ID ≥ `startId`; in particular the
response with IDs `[55,54,53,52,51]` for sub-range `[53, 56)` yields exactly
the posts with IDs `[55,54,53]`. -/
theorem requestPost_trims_descending (r : Resp) (startId stopId : Int)
    (hw : stopId - startId ≤ dbooruLimit) (hne : startId ≠ stopId)
    (hh : r.httpOk = true) (hd : r.decodeOk = true)
    (hs : r.listAfter.Pairwise (fun a b => b.Id ≤ a.Id)) :
    requestPost r startId stopId =
      some (r.listAfter.filter (fun q => decide (startId ≤ q.Id))) ∧
    requestPost respDescending 53 56 =
      some [postWithId 55, postWithId 54, postWithId 53] := by
  constructor
  · rw [requestPost, if_neg (by omega)]
    simp only [hh, hd, if_neg hne, Bool.true_eq_false, if_false]
    rw [trimPosts_eq_takeWhile, takeWhile_eq_filter_of_sorted hs]
  · decide

/-- Witness for C3 at the concrete scenario of the claim. -/
theorem requestPost_trims_descending_witness :
    ((56 : Int) - 53 ≤ dbooruLimit ∧ (53 : Int) ≠ 56 ∧
      respDescending.httpOk = true ∧ respDescending.decodeOk = true ∧
      respDescending.listAfter.Pairwise (fun a b => b.Id ≤ a.Id)) ∧
    requestPost respDescending 53 56 =
      some (respDescending.listAfter.filter (fun q => decide ((53 : Int) ≤ q.Id))) :=
  ⟨⟨by decide, by decide, by decide, by decide, by decide⟩,
    (requestPost_trims_descending respDescending 53 56 (by decide) (by decide)
      (by decide) (by decide) (by decide)).1⟩

/-- C4: `requestPost` hits its fatal `log.Fatalf` check — aborting the whole
run — exactly when `stopId - startId > 20`; a width of 20 or less never
triggers it, whatever the remote does. -/
theorem requestPost_fatal_iff (r : Resp) (startId stopId : Int) :
    requestPost r startId stopId = none ↔ stopId - startId > dbooruLimit := by
  rw [requestPost]
  by_cases hwide : stopId - startId > dbooruLimit
  · simp [hwide]
  · simp [hwide]

/-- C9: within the width limit, on the paged path with a successful fetch and
decode, `requestPost` returns exactly the maximal prefix of the decoded list
(in whatever order it arrived) in which every post has ID ≥ `startId`; the
first post with smaller ID and everything after it — including later posts
with ID ≥ `startId` — are dropped. -/
theorem requestPost_maximal_good_prefix (r : Resp) (startId stopId : Int)
    (hw : stopId - startId ≤ dbooruLimit) (hne : startId ≠ stopId)
    (hh : r.httpOk = true) (hd : r.decodeOk = true) :
    requestPost r startId stopId =
      some (r.listAfter.takeWhile (fun q => decide (startId ≤ q.Id))) := by
  rw [requestPost, if_neg (by omega)]
  simp only [hh, hd, if_neg hne, Bool.true_eq_false, if_false]
  rw [trimPosts_eq_takeWhile]

/-- Witness for C9: the out-of-order response `[55, 10, 54]` for sub-range
`[20, 30)` is cut at the first small ID, so the trailing 54 is dropped too. -/
theorem requestPost_maximal_good_prefix_witness :
    ((30 : Int) - 20 ≤ dbooruLimit ∧ (20 : Int) ≠ 30 ∧
      requestPost respOutOfOrder 20 30 =
        some (respOutOfOrder.listAfter.takeWhile
          (fun q => decide ((20 : Int) ≤ q.Id)))) ∧
    (respOutOfOrder.listAfter.takeWhile
        (fun q => decide ((20 : Int) ≤ q.Id))) = [postWithId 55] :=
  ⟨⟨by decide, by decide,
    requestPost_maximal_good_prefix respOutOfOrder 20 30 (by decide) (by decide) rfl rfl⟩,
   by decide⟩

/-- Counterexample to C5: on the single-post path (`startId == stopId`) a
JSON-decode failure does NOT yield an empty list — `p = append(p, post)` runs
before the error check, so `requestPost` returns one (zero-valued) post, and
`scrapeBatch` then performs persistence work for it instead of being a no-op. -/
theorem requestPost_single_decode_failure_nonempty :
    requestPost respDecodeFail 5 5 = some [zeroPost] ∧
    requestPost respDecodeFail 5 5 ≠ some ([] : List Post) ∧
    scrapeBatch happyEnv respDecodeFail 5 5 emptyDb ≠ some (emptyDb, ([] : List Op)) := by
  refine ⟨by decide, by decide, ?_⟩
  decide

/-- C5 as amended: within the width limit, an HTTP failure (transport error or
non-200 status) makes `requestPost` return an empty list on both paths, and
the calling `scrapeBatch` performs no persistence work; but a JSON-decode
failure returns whatever the decoder left, untrimmed — the (possibly partial)
slice on the paged path and a ONE-element list holding the zero/partial post
on the single-post path. -/
theorem requestPost_failure_amended (env : Env) (r : Resp) (startId stopId : Int)
    (db : Db) (hw : stopId - startId ≤ dbooruLimit) :
    (r.httpOk = false → requestPost r startId stopId = some [] ∧
      (startId ≤ stopId → scrapeBatch env r startId stopId db = some (db, []))) ∧
    (r.httpOk = true → r.decodeOk = false →
      requestPost r startId stopId =
        some (if startId = stopId then [r.singleAfter] else r.listAfter)) := by
  have hnotwide : ¬ stopId - startId > dbooruLimit := by omega
  constructor
  · intro hhttp
    have hreq : requestPost r startId stopId = some [] := by
      rw [requestPost, if_neg hnotwide, hhttp]
      simp
    refine ⟨hreq, fun hle => ?_⟩
    rw [scrapeBatch, if_neg (by omega), hreq]
    simp [List.foldl]
  · intro hhttp hdec
    rw [requestPost, if_neg hnotwide, hhttp, hdec]
    by_cases hst : startId = stopId <;> simp [hst]

/-- Witness for C5 (amended) at a failed HTTP exchange over `[3, 10)`. -/
theorem requestPost_failure_amended_witness :
    ((10 : Int) - 3 ≤ dbooruLimit ∧ respHttpFail.httpOk = false ∧ (3 : Int) ≤ 10) ∧
    (requestPost respHttpFail 3 10 = some [] ∧
      scrapeBatch happyEnv respHttpFail 3 10 emptyDb = some (emptyDb, [])) := by
  refine ⟨⟨by decide, by decide, by decide⟩, ?_⟩
  have h := (requestPost_failure_amended happyEnv respHttpFail 3 10 emptyDb
    (by decide)).1 (by decide)
  exact ⟨h.1, h.2 (by decide)⟩

theorem find?_append_of_some {α : Type} {p : α → Bool} {l1 l2 : List α} {x : α}
    (h : l1.find? p = some x) : (l1 ++ l2).find? p = some x := by
  induction l1 with
  | nil => simp [List.find?] at h
  | cons a t ih =>
    by_cases hpa : p a
    · rw [List.find?_cons_of_pos _ hpa] at h
      rw [List.cons_append, List.find?_cons_of_pos _ hpa]
      exact h
    · rw [List.find?_cons_of_neg _ hpa] at h
      rw [List.cons_append, List.find?_cons_of_neg _ hpa]
      exact ih h

theorem insertTag_fields (db : Db) (n : List Char) (c : String) :
    (db.insertTag n c).posts = db.posts ∧ (db.insertTag n c).tagged = db.tagged ∧
    (db.insertTag n c).favorites = db.favorites ∧ (db.insertTag n c).pooled = db.pooled ∧
    ∃ l, (db.insertTag n c).tags = db.tags ++ l := by
  unfold Db.insertTag
  split
  · exact ⟨rfl, rfl, rfl, rfl, [], by simp⟩
  · exact ⟨rfl, rfl, rfl, rfl, [⟨db.nextTagId, n, c⟩], rfl⟩

theorem insertTag_hasTagName_self (db : Db) (n : List Char) (c : String) :
    (db.insertTag n c).hasTagName n = true := by
  unfold Db.insertTag
  split
  · next hhas => simpa [Db.hasTagName] using hhas
  · simp [Db.hasTagName, List.any_append]

theorem hasTagName_append {db db' : Db} {l : List Tag} (h : db'.tags = db.tags ++ l)
    {x : List Char} (hx : db.hasTagName x = true) : db'.hasTagName x = true := by
  unfold Db.hasTagName at *
  rw [h, List.any_append, hx, Bool.true_or]

theorem lookupTag_append {db db' : Db} {l : List Tag} (h : db'.tags = db.tags ++ l)
    {x : List Char} {tid : Int} (hx : db.lookupTag x = some tid) :
    db'.lookupTag x = some tid := by
  unfold Db.lookupTag at *
  rw [h]
  obtain ⟨tg, htg, hid⟩ := Option.map_eq_some'.mp hx
  rw [find?_append_of_some htg]
  simp [hid]

theorem lookupTag_of_hasTagName {db : Db} {x : List Char} (h : db.hasTagName x = true) :
    ∃ tid, db.lookupTag x = some tid := by
  unfold Db.hasTagName at h
  unfold Db.lookupTag
  have hsome : (db.tags.find? (fun tg => tg.name == x)).isSome := by
    rw [List.find?_isSome]
    exact List.any_eq_true.mp h
  obtain ⟨tg', htg'⟩ := Option.isSome_iff_exists.mp hsome
  exact ⟨tg'.id, by rw [htg']; rfl⟩

theorem anyId_of_lookupTag {db : Db} {x : List Char} {tid : Int}
    (h : db.lookupTag x = some tid) : db.tags.any (fun tg => tg.id == tid) = true := by
  unfold Db.lookupTag at h
  obtain ⟨tg, htg, hid⟩ := Option.map_eq_some'.mp h
  have hmem := List.mem_of_find?_eq_some htg
  exact List.any_eq_true.mpr ⟨tg, hmem, by simp [hid]⟩

theorem insertTagged_fields (db : Db) (a b : Int) :
    (db.insertTagged a b).1.posts = db.posts ∧ (db.insertTagged a b).1.tags = db.tags ∧
    (db.insertTagged a b).1.favorites = db.favorites ∧
    (db.insertTagged a b).1.pooled = db.pooled ∧
    ∃ l, (db.insertTagged a b).1.tagged = db.tagged ++ l := by
  unfold Db.insertTagged
  split
  · exact ⟨rfl, rfl, rfl, rfl, [], by simp⟩
  · split
    · exact ⟨rfl, rfl, rfl, rfl, [], by simp⟩
    · exact ⟨rfl, rfl, rfl, rfl, [(a, b)], rfl⟩

theorem insertTagged_mem {db : Db} {a b : Int} (hp : db.hasPost b = true)
    (ha : db.tags.any (fun tg => tg.id == a) = true) :
    (a, b) ∈ (db.insertTagged a b).1.tagged := by
  unfold Db.insertTagged
  rw [if_neg (by simp [hp, ha])]
  split
  · next hmem => exact hmem
  · simp

theorem insertFav_fields (db : Db) (a b : Int) :
    (db.insertFav a b).1.posts = db.posts ∧ (db.insertFav a b).1.tags = db.tags ∧
    (db.insertFav a b).1.tagged = db.tagged ∧ (db.insertFav a b).1.pooled = db.pooled ∧
    ∃ l, (db.insertFav a b).1.favorites = db.favorites ++ l := by
  unfold Db.insertFav
  split
  · exact ⟨rfl, rfl, rfl, rfl, [], by simp⟩
  · split
    · exact ⟨rfl, rfl, rfl, rfl, [], by simp⟩
    · exact ⟨rfl, rfl, rfl, rfl, [(a, b)], rfl⟩

theorem insertFav_mem {db : Db} {a b : Int} (hp : db.hasPost b = true) :
    (a, b) ∈ (db.insertFav a b).1.favorites := by
  unfold Db.insertFav
  rw [if_neg (by simp [hp])]
  split
  · next hmem => exact hmem
  · simp

theorem insertPool_fields (db : Db) (a b : Int) :
    (db.insertPool a b).1.posts = db.posts ∧ (db.insertPool a b).1.tags = db.tags ∧
    (db.insertPool a b).1.tagged = db.tagged ∧
    (db.insertPool a b).1.favorites = db.favorites ∧
    ∃ l, (db.insertPool a b).1.pooled = db.pooled ++ l := by
  unfold Db.insertPool
  split
  · exact ⟨rfl, rfl, rfl, rfl, [], by simp⟩
  · split
    · exact ⟨rfl, rfl, rfl, rfl, [], by simp⟩
    · exact ⟨rfl, rfl, rfl, rfl, [(a, b)], rfl⟩

theorem insertPool_mem {db : Db} {a b : Int} (hp : db.hasPost b = true) :
    (a, b) ∈ (db.insertPool a b).1.pooled := by
  unfold Db.insertPool
  rw [if_neg (by simp [hp])]
  split
  · next hmem => exact hmem
  · simp

theorem insertPost_not_found {db : Db} {p : Post} (h : db.hasPost p.Id = false) :
    db.insertPost p = ({ db with posts := db.posts ++ [p] }, false) := by
  unfold Db.insertPost
  rw [if_neg (by simp [h])]

theorem insertPost_found {db : Db} {p : Post} (h : db.hasPost p.Id = true) :
    db.insertPost p = (db, true) := by
  unfold Db.insertPost
  rw [if_pos h]

theorem tagInsertLoop_frame (env : Env) (cat : String) (ts : List (List Char)) :
    ∀ (i : Nat) (st : Db),
      (tagInsertLoop env cat i ts st).1.posts = st.posts ∧
      (tagInsertLoop env cat i ts st).1.tagged = st.tagged ∧
      (tagInsertLoop env cat i ts st).1.favorites = st.favorites ∧
      (tagInsertLoop env cat i ts st).1.pooled = st.pooled ∧
      ∃ l, (tagInsertLoop env cat i ts st).1.tags = st.tags ++ l := by
  induction ts with
  | nil => exact fun i st => ⟨rfl, rfl, rfl, rfl, ⟨[], by simp [tagInsertLoop]⟩⟩
  | cons t rest ih =>
    intro i st
    cases hc : env.tagExecFails i with
    | true =>
      simp only [tagInsertLoop, hc, if_true]
      exact ih (i + 1) st
    | false =>
      simp only [tagInsertLoop, hc, Bool.false_eq_true, if_false]
      obtain ⟨hp, ht, hf, hl, l1, hta⟩ := ih (i + 1) (st.insertTag t cat)
      obtain ⟨gp, gt, gf, gl, l0, gta⟩ := insertTag_fields st t cat
      refine ⟨hp.trans gp, ht.trans gt, hf.trans gf, hl.trans gl, ⟨l0 ++ l1, ?_⟩⟩
      rw [hta, gta, List.append_assoc]

theorem tagInsertLoop_ops (env : Env) (cat : String) (ts : List (List Char)) :
    ∀ (i : Nat) (st : Db), ∀ o ∈ (tagInsertLoop env cat i ts st).2,
      isTagSectionOp o = true := by
  induction ts with
  | nil => intro i st o ho; simp [tagInsertLoop] at ho
  | cons t rest ih =>
    intro i st o ho
    simp only [tagInsertLoop] at ho
    rcases List.mem_cons.mp ho with h | h
    · subst h; rfl
    · exact ih (i + 1) _ o h

theorem tagInsertLoop_hasAll (env : Env) (cat : String)
    (hAll : ∀ j, env.tagExecFails j = false) (ts : List (List Char)) :
    ∀ (i : Nat) (st : Db), ∀ t ∈ ts,
      (tagInsertLoop env cat i ts st).1.hasTagName t = true := by
  induction ts with
  | nil => intro i st t ht; simp at ht
  | cons t0 rest ih =>
    intro i st t ht
    simp only [tagInsertLoop, hAll i, Bool.false_eq_true, if_false]
    rcases List.mem_cons.mp ht with h | h
    · subst h
      obtain ⟨_, _, _, _, l, hta⟩ :=
        tagInsertLoop_frame env cat rest (i + 1) (st.insertTag t cat)
      exact hasTagName_append hta (insertTag_hasTagName_self st t cat)
    · exact ih (i + 1) (st.insertTag t0 cat) t h

theorem tagEdgeLoop_frame (env : Env) (pid : Int) (ts : List (List Char)) :
    ∀ (i : Nat) (st : Db),
      (tagEdgeLoop env pid i ts st).1.posts = st.posts ∧
      (tagEdgeLoop env pid i ts st).1.tags = st.tags ∧
      (tagEdgeLoop env pid i ts st).1.favorites = st.favorites ∧
      (tagEdgeLoop env pid i ts st).1.pooled = st.pooled ∧
      ∃ l, (tagEdgeLoop env pid i ts st).1.tagged = st.tagged ++ l := by
  induction ts with
  | nil => exact fun i st => ⟨rfl, rfl, rfl, rfl, ⟨[], by simp [tagEdgeLoop]⟩⟩
  | cons t rest ih =>
    intro i st
    cases hc : env.edgeExecFails i with
    | true =>
      simp only [tagEdgeLoop, hc, if_true]
      exact ih (i + 1) st
    | false =>
      simp only [tagEdgeLoop, hc, Bool.false_eq_true, if_false]
      obtain ⟨hp, ht, hf, hl, l1, hta⟩ := ih (i + 1) _
      obtain ⟨gp, gt, gf, gl, l0, gta⟩ := insertTagged_fields st
        (if env.lookupFails i then 0 else (st.lookupTag t).getD 0) pid
      refine ⟨hp.trans gp, ht.trans gt, hf.trans gf, hl.trans gl, ⟨l0 ++ l1, ?_⟩⟩
      rw [hta, gta, List.append_assoc]

theorem tagEdgeLoop_ops (env : Env) (pid : Int) (ts : List (List Char)) :
    ∀ (i : Nat) (st : Db), ∀ o ∈ (tagEdgeLoop env pid i ts st).2,
      isTagSectionOp o = true := by
  induction ts with
  | nil => intro i st o ho; simp [tagEdgeLoop] at ho
  | cons t rest ih =>
    intro i st o ho
    simp only [tagEdgeLoop] at ho
    rcases List.mem_cons.mp ho with h | h
    · subst h; rfl
    · rcases List.mem_cons.mp h with h2 | h2
      · subst h2; rfl
      · exact ih (i + 1) _ o h2

theorem tagEdgeLoop_mem_idx (env : Env) (pid : Int)
    (hlk : ∀ j, env.lookupFails j = false) (ts : List (List Char)) :
    ∀ (i : Nat) (st : Db), st.hasPost pid = true →
      ∀ (k : Nat) (t : List Char), ts.get? k = some t →
        env.edgeExecFails (i + k) = false → st.hasTagName t = true →
        ∃ tid, st.lookupTag t = some tid ∧
          (tid, pid) ∈ (tagEdgeLoop env pid i ts st).1.tagged := by
  induction ts with
  | nil => intro i st _ k t hk; simp at hk
  | cons t0 rest ih =>
    intro i st hpost k t hk hedge hname
    cases k with
    | zero =>
      simp only [List.get?_cons_zero, Option.some.injEq] at hk
      subst hk
      obtain ⟨tid, htid⟩ := lookupTag_of_hasTagName hname
      refine ⟨tid, htid, ?_⟩
      have hzero : env.edgeExecFails i = false := by simpa using hedge
      simp only [tagEdgeLoop, hlk i, Bool.false_eq_true, if_false, hzero, htid,
        Option.getD_some]
      obtain ⟨_, _, _, _, l, hta⟩ :=
        tagEdgeLoop_frame env pid rest (i + 1) (st.insertTagged tid pid).1
      rw [hta]
      exact List.mem_append_left l (insertTagged_mem hpost (anyId_of_lookupTag htid))
    | succ m =>
      simp only [List.get?_cons_succ] at hk
      cases hc : env.edgeExecFails i with
      | true =>
        simp only [tagEdgeLoop, hc, if_true]
        exact ih (i + 1) st hpost m t hk
          (by rw [show i + 1 + m = i + (m + 1) from by omega]; exact hedge) hname
      | false =>
        simp only [tagEdgeLoop, hc, Bool.false_eq_true, if_false]
        obtain ⟨gp, gt, _, _, _⟩ := insertTagged_fields st
          (if env.lookupFails i then 0 else (st.lookupTag t0).getD 0) pid
        have hpost1 : (st.insertTagged
            (if env.lookupFails i then 0 else (st.lookupTag t0).getD 0) pid).1.hasPost
              pid = true := by
          unfold Db.hasPost at *
          rw [gp]
          exact hpost
        have hname1 : (st.insertTagged
            (if env.lookupFails i then 0 else (st.lookupTag t0).getD 0) pid).1.hasTagName
              t = true := by
          unfold Db.hasTagName at *
          rw [gt]
          exact hname
        obtain ⟨tid, htid, hmem⟩ :=
          ih (i + 1) _ hpost1 m t hk
            (by rw [show i + 1 + m = i + (m + 1) from by omega]; exact hedge) hname1
        refine ⟨tid, ?_, hmem⟩
        unfold Db.lookupTag at *
        rw [gt] at htid
        exact htid

theorem tagEdgeLoop_trace_args (env : Env) (pid : Int) (ts : List (List Char)) :
    ∀ (i : Nat) (st : Db),
      ((tagEdgeLoop env pid i ts st).2.filterMap Op.taggedArgs).length = ts.length ∧
      ∀ (k : Nat) (t : List Char), ts.get? k = some t →
        env.lookupFails (i + k) = true →
        ((tagEdgeLoop env pid i ts st).2.filterMap Op.taggedArgs).get? k =
          some (0, pid) := by
  induction ts with
  | nil =>
    intro i st
    refine ⟨by simp [tagEdgeLoop], ?_⟩
    intro k t hk
    simp at hk
  | cons t0 rest ih =>
    intro i st
    constructor
    · simp only [tagEdgeLoop, List.filterMap_cons, Op.taggedArgs, List.length_cons]
      exact congrArg Nat.succ (ih (i + 1) _).1
    · intro k t hk hfail
      cases k with
      | zero =>
        have hz : env.lookupFails i = true := by simpa using hfail
        simp only [tagEdgeLoop, hz, if_true, List.filterMap_cons, Op.taggedArgs,
          List.get?_cons_zero]
      | succ m =>
        simp only [List.get?_cons_succ] at hk
        have hm : env.lookupFails (i + 1 + m) = true := by
          rw [show i + 1 + m = i + (m + 1) from by omega]; exact hfail
        simp only [tagEdgeLoop, List.filterMap_cons, Op.taggedArgs,
          List.get?_cons_succ]
        exact (ih (i + 1) _).2 m t hk hm

theorem tagEdgeLoop_mem (env : Env) (pid : Int)
    (hlk : ∀ j, env.lookupFails j = false)
    (hed : ∀ j, env.edgeExecFails j = false) (ts : List (List Char))
    (i : Nat) (st : Db) (hpost : st.hasPost pid = true)
    (t : List Char) (ht : t ∈ ts) (hname : st.hasTagName t = true) :
    ∃ tid, st.lookupTag t = some tid ∧
      (tid, pid) ∈ (tagEdgeLoop env pid i ts st).1.tagged := by
  obtain ⟨k, hk⟩ := List.mem_iff_get?.mp ht
  exact tagEdgeLoop_mem_idx env pid hlk ts i st hpost k t hk (hed _) hname

theorem favLoop_frame (env : Env) (pid : Int) (toks : List (List Char)) :
    ∀ (i : Nat) (st : Db),
      (favLoop env pid i toks st).1.posts = st.posts ∧
      (favLoop env pid i toks st).1.tags = st.tags ∧
      (favLoop env pid i toks st).1.tagged = st.tagged ∧
      (favLoop env pid i toks st).1.pooled = st.pooled ∧
      ∃ l, (favLoop env pid i toks st).1.favorites = st.favorites ++ l := by
  induction toks with
  | nil => exact fun i st => ⟨rfl, rfl, rfl, rfl, ⟨[], by simp [favLoop]⟩⟩
  | cons tok rest ih =>
    intro i st
    cases hparse : atoi (trimPrefC tok "fav:".data) with
    | none =>
      simp only [favLoop, hparse]
      exact ih (i + 1) st
    | some uid =>
      cases hc : env.favExecFails i with
      | true =>
        simp only [favLoop, hparse, hc, if_true]
        exact ih (i + 1) st
      | false =>
        simp only [favLoop, hparse, hc, Bool.false_eq_true, if_false]
        obtain ⟨hp, ht, hl, hq, l1, hfa⟩ := ih (i + 1) (st.insertFav uid pid).1
        obtain ⟨gp, gt, gl, gq, l0, gfa⟩ := insertFav_fields st uid pid
        refine ⟨hp.trans gp, ht.trans gt, hl.trans gl, hq.trans gq, ⟨l0 ++ l1, ?_⟩⟩
        rw [hfa, gfa, List.append_assoc]

theorem favLoop_ops (env : Env) (pid : Int) (toks : List (List Char)) :
    ∀ (i : Nat) (st : Db), ∀ o ∈ (favLoop env pid i toks st).2, o.isFavExec = true := by
  induction toks with
  | nil => intro i st o ho; simp [favLoop] at ho
  | cons tok rest ih =>
    intro i st o ho
    cases hparse : atoi (trimPrefC tok "fav:".data) with
    | none =>
      simp only [favLoop, hparse] at ho
      exact ih (i + 1) st o ho
    | some uid =>
      simp only [favLoop, hparse] at ho
      rcases List.mem_cons.mp ho with h | h
      · subst h; rfl
      · exact ih (i + 1) _ o h

theorem favLoop_mem (env : Env) (pid : Int)
    (hAll : ∀ j, env.favExecFails j = false) (toks : List (List Char)) :
    ∀ (i : Nat) (st : Db), st.hasPost pid = true →
      ∀ uid ∈ toks.filterMap (fun tok => atoi (trimPrefC tok "fav:".data)),
        (uid, pid) ∈ (favLoop env pid i toks st).1.favorites := by
  induction toks with
  | nil => intro i st _ uid h; simp at h
  | cons tok rest ih =>
    intro i st hpost uid hmem
    cases hparse : atoi (trimPrefC tok "fav:".data) with
    | none =>
      simp only [favLoop, hparse]
      simp only [List.filterMap_cons, hparse] at hmem
      exact ih (i + 1) st hpost uid hmem
    | some uid0 =>
      simp only [List.filterMap_cons, hparse] at hmem
      simp only [favLoop, hparse, hAll i, Bool.false_eq_true, if_false]
      rcases List.mem_cons.mp hmem with h | h
      · subst h
        obtain ⟨_, _, _, _, l, hfa⟩ :=
          favLoop_frame env pid rest (i + 1) (st.insertFav uid pid).1
        rw [hfa]
        exact List.mem_append_left l (insertFav_mem hpost)
      · obtain ⟨gp, _, _, _, _⟩ := insertFav_fields st uid0 pid
        have hpost1 : (st.insertFav uid0 pid).1.hasPost pid = true := by
          unfold Db.hasPost at *
          rw [gp]
          exact hpost
        exact ih (i + 1) _ hpost1 uid h

theorem poolLoop_frame (env : Env) (pid : Int) (toks : List (List Char)) :
    ∀ (i : Nat) (st : Db),
      (poolLoop env pid i toks st).1.posts = st.posts ∧
      (poolLoop env pid i toks st).1.tags = st.tags ∧
      (poolLoop env pid i toks st).1.tagged = st.tagged ∧
      (poolLoop env pid i toks st).1.favorites = st.favorites ∧
      ∃ l, (poolLoop env pid i toks st).1.pooled = st.pooled ++ l := by
  induction toks with
  | nil => exact fun i st => ⟨rfl, rfl, rfl, rfl, ⟨[], by simp [poolLoop]⟩⟩
  | cons tok rest ih =>
    intro i st
    cases hparse : atoi (trimPrefC tok "pool:".data) with
    | none =>
      simp only [poolLoop, hparse]
      exact ih (i + 1) st
    | some plid =>
      cases hc : env.poolExecFails i with
      | true =>
        simp only [poolLoop, hparse, hc, if_true]
        exact ih (i + 1) st
      | false =>
        simp only [poolLoop, hparse, hc, Bool.false_eq_true, if_false]
        obtain ⟨hp, ht, hl, hq, l1, hfa⟩ := ih (i + 1) (st.insertPool plid pid).1
        obtain ⟨gp, gt, gl, gq, l0, gfa⟩ := insertPool_fields st plid pid
        refine ⟨hp.trans gp, ht.trans gt, hl.trans gl, hq.trans gq, ⟨l0 ++ l1, ?_⟩⟩
        rw [hfa, gfa, List.append_assoc]

theorem poolLoop_ops (env : Env) (pid : Int) (toks : List (List Char)) :
    ∀ (i : Nat) (st : Db), ∀ o ∈ (poolLoop env pid i toks st).2, o.isPoolExec = true := by
  induction toks with
  | nil => intro i st o ho; simp [poolLoop] at ho
  | cons tok rest ih =>
    intro i st o ho
    cases hparse : atoi (trimPrefC tok "pool:".data) with
    | none =>
      simp only [poolLoop, hparse] at ho
      exact ih (i + 1) st o ho
    | some plid =>
      simp only [poolLoop, hparse] at ho
      rcases List.mem_cons.mp ho with h | h
      · subst h; rfl
      · exact ih (i + 1) _ o h

theorem poolLoop_mem (env : Env) (pid : Int)
    (hAll : ∀ j, env.poolExecFails j = false) (toks : List (List Char)) :
    ∀ (i : Nat) (st : Db), st.hasPost pid = true →
      ∀ plid ∈ toks.filterMap (fun tok => atoi (trimPrefC tok "pool:".data)),
        (plid, pid) ∈ (poolLoop env pid i toks st).1.pooled := by
  induction toks with
  | nil => intro i st _ plid h; simp at h
  | cons tok rest ih =>
    intro i st hpost plid hmem
    cases hparse : atoi (trimPrefC tok "pool:".data) with
    | none =>
      simp only [poolLoop, hparse]
      simp only [List.filterMap_cons, hparse] at hmem
      exact ih (i + 1) st hpost plid hmem
    | some plid0 =>
      simp only [List.filterMap_cons, hparse] at hmem
      simp only [poolLoop, hparse, hAll i, Bool.false_eq_true, if_false]
      rcases List.mem_cons.mp hmem with h | h
      · subst h
        obtain ⟨_, _, _, _, l, hfa⟩ :=
          poolLoop_frame env pid rest (i + 1) (st.insertPool plid pid).1
        rw [hfa]
        exact List.mem_append_left l (insertPool_mem hpost)
      · obtain ⟨gp, _, _, _, _⟩ := insertPool_fields st plid0 pid
        have hpost1 : (st.insertPool plid0 pid).1.hasPost pid = true := by
          unfold Db.hasPost at *
          rw [gp]
          exact hpost
        exact ih (i + 1) _ hpost1 plid h

theorem hasPost_congr {db db' : Db} (h : db'.posts = db.posts) {pid : Int}
    (hp : db.hasPost pid = true) : db'.hasPost pid = true := by
  unfold Db.hasPost at *
  rw [h]
  exact hp

theorem hasTagName_congr {db db' : Db} (h : db'.tags = db.tags) {t : List Char}
    (htg : db.hasTagName t = true) : db'.hasTagName t = true := by
  unfold Db.hasTagName at *
  rw [h]
  exact htg

theorem lookupTag_congr {db db' : Db} (h : db'.tags = db.tags) {t : List Char} {tid : Int}
    (htg : db.lookupTag t = some tid) : db'.lookupTag t = some tid := by
  unfold Db.lookupTag at *
  rw [h]
  exact htg

theorem tagsTx1_frame (env : Env) (cat : String) (sp : List (List Char)) (db : Db) :
    (tagsTx1 env cat sp db).1.posts = db.posts ∧
    (tagsTx1 env cat sp db).1.tagged = db.tagged ∧
    (tagsTx1 env cat sp db).1.favorites = db.favorites ∧
    (tagsTx1 env cat sp db).1.pooled = db.pooled ∧
    ∃ l, (tagsTx1 env cat sp db).1.tags = db.tags ++ l := by
  unfold tagsTx1
  split
  · exact tagInsertLoop_frame env cat sp 0 db
  · exact ⟨rfl, rfl, rfl, rfl, ⟨[], by simp⟩⟩

theorem tagsTx1_ops (env : Env) (cat : String) (sp : List (List Char)) (db : Db) :
    ∀ o ∈ (tagsTx1 env cat sp db).2, isTagSectionOp o = true := by
  unfold tagsTx1
  split
  · exact tagInsertLoop_ops env cat sp 0 db
  · intro o ho
    simp at ho

theorem tagsTx2_frame (env : Env) (pid : Int) (sp : List (List Char)) (db1 : Db) :
    (tagsTx2 env pid sp db1).1.posts = db1.posts ∧
    (tagsTx2 env pid sp db1).1.tags = db1.tags ∧
    (tagsTx2 env pid sp db1).1.favorites = db1.favorites ∧
    (tagsTx2 env pid sp db1).1.pooled = db1.pooled ∧
    ∃ l, (tagsTx2 env pid sp db1).1.tagged = db1.tagged ++ l := by
  unfold tagsTx2
  split
  · exact tagEdgeLoop_frame env pid sp 0 db1
  · exact ⟨rfl, rfl, rfl, rfl, ⟨[], by simp⟩⟩

theorem tagsTx2_ops (env : Env) (pid : Int) (sp : List (List Char)) (db1 : Db) :
    ∀ o ∈ (tagsTx2 env pid sp db1).2, isTagSectionOp o = true := by
  unfold tagsTx2
  split
  · exact tagEdgeLoop_ops env pid sp 0 db1
  · intro o ho
    simp at ho

theorem tagsTr1_ops (env : Env) (tags cat : String) (db : Db) :
    ∀ o ∈ tagsTr1 env tags cat db, isTagSectionOp o = true := by
  intro o ho
  unfold tagsTr1 at ho
  rcases List.mem_cons.mp ho with h | h
  · subst h; rfl
  · rcases List.mem_append.mp h with h2 | h2
    · exact tagsTx1_ops env cat _ db o h2
    · rw [List.mem_singleton] at h2
      subst h2; rfl

theorem tagsTr2_ops (env : Env) (tags cat : String) (pid : Int) (db : Db) :
    ∀ o ∈ tagsTr2 env tags cat pid db, isTagSectionOp o = true := by
  intro o ho
  unfold tagsTr2 at ho
  rcases List.mem_cons.mp ho with h | h
  · subst h; rfl
  · rcases List.mem_append.mp h with h2 | h2
    · exact tagsTx2_ops env pid _ _ o h2
    · rw [List.mem_singleton] at h2
      subst h2; rfl

theorem dbInsertTags_frame (env : Env) (tags cat : String) (pid : Int) (db : Db) :
    (dbInsertTags env tags cat pid db).1.posts = db.posts ∧
    (dbInsertTags env tags cat pid db).1.favorites = db.favorites ∧
    (dbInsertTags env tags cat pid db).1.pooled = db.pooled ∧
    (∃ l, (dbInsertTags env tags cat pid db).1.tags = db.tags ++ l) ∧
    (∃ l, (dbInsertTags env tags cat pid db).1.tagged = db.tagged ++ l) ∧
    ∀ o ∈ (dbInsertTags env tags cat pid db).2, isTagSectionOp o = true := by
  obtain ⟨a1, a2, a3, a4, l1, a5⟩ := tagsTx1_frame env cat (splitSp tags.data) db
  obtain ⟨b1, b2, b3, b4, l2, b5⟩ :=
    tagsTx2_frame env pid (splitSp tags.data) (tagsTx1 env cat (splitSp tags.data) db).1
  unfold dbInsertTags
  split
  · exact ⟨rfl, rfl, rfl, ⟨[], by simp⟩, ⟨[], by simp⟩, fun o ho => by simp at ho⟩
  split
  · exact ⟨rfl, rfl, rfl, ⟨[], by simp⟩, ⟨[], by simp⟩, fun o ho => by simp at ho⟩
  split
  · exact ⟨rfl, rfl, rfl, ⟨[], by simp⟩, ⟨[], by simp⟩, tagsTr1_ops env tags cat db⟩
  split
  · exact ⟨a1, a3, a4, ⟨l1, a5⟩, ⟨[], by simp [a2]⟩, tagsTr1_ops env tags cat db⟩
  · have hops : ∀ o ∈ tagsTr1 env tags cat db ++ tagsTr2 env tags cat pid db,
        isTagSectionOp o = true := by
      intro o ho
      rcases List.mem_append.mp ho with h | h
      · exact tagsTr1_ops env tags cat db o h
      · exact tagsTr2_ops env tags cat pid db o h
    split
    · refine ⟨b1.trans a1, b3.trans a3, b4.trans a4, ⟨l1, by rw [b2, a5]⟩, ?_, hops⟩
      exact ⟨l2, by rw [b5, a2]⟩
    · exact ⟨a1, a3, a4, ⟨l1, a5⟩, ⟨[], by simp [a2]⟩, hops⟩

theorem dbInsertTags_tagsPresent (env : Env) (tags cat : String) (pid : Int) (db : Db)
    (ht : trimSpace tags.data ≠ [])
    (hb1 : env.tagsBegin1Ok = true) (hp1 : env.tagsPrepInsOk = true)
    (hc1 : env.tagsCommit1Ok = true)
    (hAll : ∀ j, env.tagExecFails j = false) :
    ∀ t ∈ splitSp tags.data, (dbInsertTags env tags cat pid db).1.hasTagName t = true := by
  intro t hmem
  have h1 : (tagsTx1 env cat (splitSp tags.data) db).1.hasTagName t = true := by
    unfold tagsTx1
    rw [if_pos hp1]
    exact tagInsertLoop_hasAll env cat hAll _ 0 db t hmem
  obtain ⟨_, b2, _, _, _⟩ :=
    tagsTx2_frame env pid (splitSp tags.data) (tagsTx1 env cat (splitSp tags.data) db).1
  unfold dbInsertTags
  rw [if_neg ht, if_neg (by simp [hb1]), if_neg (by simp [hc1])]
  split
  · exact h1
  · split
    · exact hasTagName_congr b2 h1
    · exact h1

theorem dbInsertTags_happy_content (tags cat : String) (pid : Int) (db : Db)
    (hpost : db.hasPost pid = true) :
    ∀ t ∈ tokensOf tags,
      (dbInsertTags happyEnv tags cat pid db).1.hasTagName t = true ∧
      ∃ tid, (dbInsertTags happyEnv tags cat pid db).1.lookupTag t = some tid ∧
        (tid, pid) ∈ (dbInsertTags happyEnv tags cat pid db).1.tagged := by
  intro t hmem
  by_cases h0 : trimSpace tags.data = []
  · rw [tokensOf, if_pos h0] at hmem
    simp at hmem
  · rw [tokensOf, if_neg h0] at hmem
    have h1 : (tagsTx1 happyEnv cat (splitSp tags.data) db).1.hasTagName t = true := by
      unfold tagsTx1
      rw [if_pos (show happyEnv.tagsPrepInsOk = true from rfl)]
      exact tagInsertLoop_hasAll happyEnv cat (fun _ => rfl) _ 0 db t hmem
    obtain ⟨a1, _, _, _, _⟩ := tagsTx1_frame happyEnv cat (splitSp tags.data) db
    have hpost1 : (tagsTx1 happyEnv cat (splitSp tags.data) db).1.hasPost pid = true :=
      hasPost_congr a1 hpost
    have htx2 : tagsTx2 happyEnv pid (splitSp tags.data)
        (tagsTx1 happyEnv cat (splitSp tags.data) db).1 =
        tagEdgeLoop happyEnv pid 0 (splitSp tags.data)
          (tagsTx1 happyEnv cat (splitSp tags.data) db).1 := by
      unfold tagsTx2
      rw [if_pos (show (happyEnv.tagsPrepQueryOk && happyEnv.tagsPrepEdgeOk) = true from rfl)]
    obtain ⟨tid, hlk, hmemE⟩ := tagEdgeLoop_mem happyEnv pid (fun _ => rfl) (fun _ => rfl)
      (splitSp tags.data) 0 _ hpost1 t hmem h1
    obtain ⟨_, e2, _, _, _⟩ := tagEdgeLoop_frame happyEnv pid (splitSp tags.data) 0
      (tagsTx1 happyEnv cat (splitSp tags.data) db).1
    unfold dbInsertTags
    rw [if_neg h0, if_neg (by decide), if_neg (by decide), if_neg (by decide),
      if_pos (by decide : happyEnv.tagsCommit2Ok = true), htx2]
    exact ⟨hasTagName_congr e2 h1, tid, lookupTag_congr e2 hlk, hmemE⟩

theorem nodup_concat' {α : Type} {l : List α} {a : α} (h : l.Nodup) (ha : a ∉ l) :
    (l ++ [a]).Nodup := by
  rw [List.nodup_append]
  refine ⟨h, List.nodup_singleton a, ?_⟩
  intro x hx hxa
  rw [List.mem_singleton] at hxa
  subst hxa
  exact ha hx

theorem insertPost_wf {db : Db} {p : Post} (h : db.Wf) : (db.insertPost p).1.Wf := by
  unfold Db.insertPost
  split
  · exact h
  · next hnp =>
    obtain ⟨h1, h2, h3, h4, h5⟩ := h
    refine ⟨?_, h2, h3, h4, h5⟩
    have hnotin : p.Id ∉ db.posts.map Post.Id := by
      intro hin
      obtain ⟨q, hq, hqe⟩ := List.mem_map.mp hin
      unfold Db.hasPost at hnp
      exact hnp (List.any_eq_true.mpr ⟨q, hq, by simp [hqe]⟩)
    rw [List.map_append]
    exact nodup_concat' h1 hnotin

theorem insertTag_wf {db : Db} {n : List Char} {c : String} (h : db.Wf) :
    (db.insertTag n c).Wf := by
  unfold Db.insertTag
  split
  · exact h
  · next hno =>
    obtain ⟨h1, h2, h3, h4, h5⟩ := h
    refine ⟨h1, ?_, h3, h4, h5⟩
    have hnotin : n ∉ db.tags.map Tag.name := by
      intro hin
      obtain ⟨tg, htg, htge⟩ := List.mem_map.mp hin
      unfold Db.hasTagName at hno
      exact hno (List.any_eq_true.mpr ⟨tg, htg, by simp [htge]⟩)
    rw [List.map_append]
    exact nodup_concat' h2 hnotin

theorem insertTagged_wf {db : Db} {a b : Int} (h : db.Wf) : (db.insertTagged a b).1.Wf := by
  unfold Db.insertTagged
  split
  · exact h
  · split
    · exact h
    · next hno => exact ⟨h.1, h.2.1, nodup_concat' h.2.2.1 hno, h.2.2.2.1, h.2.2.2.2⟩

theorem insertFav_wf {db : Db} {a b : Int} (h : db.Wf) : (db.insertFav a b).1.Wf := by
  unfold Db.insertFav
  split
  · exact h
  · split
    · exact h
    · next hno => exact ⟨h.1, h.2.1, h.2.2.1, nodup_concat' h.2.2.2.1 hno, h.2.2.2.2⟩

theorem insertPool_wf {db : Db} {a b : Int} (h : db.Wf) : (db.insertPool a b).1.Wf := by
  unfold Db.insertPool
  split
  · exact h
  · split
    · exact h
    · next hno => exact ⟨h.1, h.2.1, h.2.2.1, h.2.2.2.1, nodup_concat' h.2.2.2.2 hno⟩

theorem tagInsertLoop_wf (env : Env) (cat : String) (ts : List (List Char)) :
    ∀ (i : Nat) (st : Db), st.Wf → (tagInsertLoop env cat i ts st).1.Wf := by
  induction ts with
  | nil => exact fun i st h => h
  | cons t rest ih =>
    intro i st h
    cases hc : env.tagExecFails i with
    | true =>
      simp only [tagInsertLoop, hc, if_true]
      exact ih (i + 1) st h
    | false =>
      simp only [tagInsertLoop, hc, Bool.false_eq_true, if_false]
      exact ih (i + 1) _ (insertTag_wf h)

theorem tagEdgeLoop_wf (env : Env) (pid : Int) (ts : List (List Char)) :
    ∀ (i : Nat) (st : Db), st.Wf → (tagEdgeLoop env pid i ts st).1.Wf := by
  induction ts with
  | nil => exact fun i st h => h
  | cons t rest ih =>
    intro i st h
    cases hc : env.edgeExecFails i with
    | true =>
      simp only [tagEdgeLoop, hc, if_true]
      exact ih (i + 1) st h
    | false =>
      simp only [tagEdgeLoop, hc, Bool.false_eq_true, if_false]
      exact ih (i + 1) _ (insertTagged_wf h)

theorem favLoop_wf (env : Env) (pid : Int) (toks : List (List Char)) :
    ∀ (i : Nat) (st : Db), st.Wf → (favLoop env pid i toks st).1.Wf := by
  induction toks with
  | nil => exact fun i st h => h
  | cons tok rest ih =>
    intro i st h
    cases hparse : atoi (trimPrefC tok "fav:".data) with
    | none =>
      simp only [favLoop, hparse]
      exact ih (i + 1) st h
    | some uid =>
      cases hc : env.favExecFails i with
      | true =>
        simp only [favLoop, hparse, hc, if_true]
        exact ih (i + 1) st h
      | false =>
        simp only [favLoop, hparse, hc, Bool.false_eq_true, if_false]
        exact ih (i + 1) _ (insertFav_wf h)

theorem poolLoop_wf (env : Env) (pid : Int) (toks : List (List Char)) :
    ∀ (i : Nat) (st : Db), st.Wf → (poolLoop env pid i toks st).1.Wf := by
  induction toks with
  | nil => exact fun i st h => h
  | cons tok rest ih =>
    intro i st h
    cases hparse : atoi (trimPrefC tok "pool:".data) with
    | none =>
      simp only [poolLoop, hparse]
      exact ih (i + 1) st h
    | some plid =>
      cases hc : env.poolExecFails i with
      | true =>
        simp only [poolLoop, hparse, hc, if_true]
        exact ih (i + 1) st h
      | false =>
        simp only [poolLoop, hparse, hc, Bool.false_eq_true, if_false]
        exact ih (i + 1) _ (insertPool_wf h)

theorem dbInsertTags_wf (env : Env) (tags cat : String) (pid : Int) (db : Db)
    (h : db.Wf) : (dbInsertTags env tags cat pid db).1.Wf := by
  have h1 : (tagsTx1 env cat (splitSp tags.data) db).1.Wf := by
    unfold tagsTx1
    split
    · exact tagInsertLoop_wf env cat _ 0 db h
    · exact h
  have h2 : (tagsTx2 env pid (splitSp tags.data)
      (tagsTx1 env cat (splitSp tags.data) db).1).1.Wf := by
    unfold tagsTx2
    split
    · exact tagEdgeLoop_wf env pid _ 0 _ h1
    · exact h1
  unfold dbInsertTags
  split
  · exact h
  split
  · exact h
  split
  · exact h
  split
  · exact h1
  · split
    · exact h2
    · exact h1

theorem dbTags4_wf (env : Env) (p : Post) (db0 : Db) (h : db0.Wf) :
    (dbTags4 env p db0).1.Wf := by
  unfold dbTags4 seqOp
  exact dbInsertTags_wf env _ _ _ _ (dbInsertTags_wf env _ _ _ _
    (dbInsertTags_wf env _ _ _ _ (dbInsertTags_wf env _ _ _ _ h)))

theorem dbInsertRel_wf (env : Env) (p : Post) (db4 : Db) (h : db4.Wf) :
    (dbInsertRel env p db4).1.Wf := by
  have hf : (favCommitted env p db4).Wf := by
    unfold favCommitted favTx
    split
    · split
      · exact favLoop_wf env p.Id _ 0 db4 h
      · exact h
    · exact h
  have hq : (poolCommitted env p (favCommitted env p db4)).Wf := by
    unfold poolCommitted poolTx
    split
    · split
      · exact poolLoop_wf env p.Id _ 0 _ hf
      · exact hf
    · exact hf
  unfold dbInsertRel
  split
  · exact h
  split
  · exact h
  split
  · exact hf
  · exact hq

theorem dbInsert_wf (env : Env) (p : Post) (db : Db) (h : db.Wf) :
    (dbInsert env p db).1.Wf := by
  unfold dbInsert
  split
  · exact h
  · exact dbInsertRel_wf env p _ (dbTags4_wf env p _ (insertPost_wf h))

theorem exists_append_trans {α : Type} {a b c : List α}
    (h1 : ∃ l, b = a ++ l) (h2 : ∃ l, c = b ++ l) : ∃ l, c = a ++ l := by
  obtain ⟨l1, e1⟩ := h1
  obtain ⟨l2, e2⟩ := h2
  exact ⟨l1 ++ l2, by rw [e2, e1, List.append_assoc]⟩

theorem content_transfer {db db' : Db}
    (htags : ∃ l, db'.tags = db.tags ++ l) (htagged : ∃ l, db'.tagged = db.tagged ++ l)
    {t : List Char} {tid pid : Int}
    (h1 : db.hasTagName t = true) (h2 : db.lookupTag t = some tid)
    (h3 : (tid, pid) ∈ db.tagged) :
    db'.hasTagName t = true ∧ db'.lookupTag t = some tid ∧ (tid, pid) ∈ db'.tagged := by
  obtain ⟨l1, e1⟩ := htags
  obtain ⟨l2, e2⟩ := htagged
  refine ⟨hasTagName_append e1 h1, lookupTag_append e1 h2, ?_⟩
  rw [e2]
  exact List.mem_append_left _ h3

theorem dbTags4_frame (env : Env) (p : Post) (db0 : Db) :
    (dbTags4 env p db0).1.posts = db0.posts ∧
    (dbTags4 env p db0).1.favorites = db0.favorites ∧
    (dbTags4 env p db0).1.pooled = db0.pooled ∧
    (∃ l, (dbTags4 env p db0).1.tags = db0.tags ++ l) ∧
    (∃ l, (dbTags4 env p db0).1.tagged = db0.tagged ++ l) ∧
    ∀ o ∈ (dbTags4 env p db0).2, isTagSectionOp o = true := by
  obtain ⟨a1, a2, a3, ea4, ea5, a6⟩ :=
    dbInsertTags_frame env p.TagStringArtist artist p.Id db0
  obtain ⟨b1, b2, b3, eb4, eb5, b6⟩ :=
    dbInsertTags_frame env p.TagStringCharacter character p.Id
      (dbInsertTags env p.TagStringArtist artist p.Id db0).1
  obtain ⟨c1, c2, c3, ec4, ec5, c6⟩ :=
    dbInsertTags_frame env p.TagStringCopyright copyright p.Id
      (dbInsertTags env p.TagStringCharacter character p.Id
        (dbInsertTags env p.TagStringArtist artist p.Id db0).1).1
  obtain ⟨g1, g2, g3, eg4, eg5, g6⟩ :=
    dbInsertTags_frame env p.TagStringGeneral general p.Id
      (dbInsertTags env p.TagStringCopyright copyright p.Id
        (dbInsertTags env p.TagStringCharacter character p.Id
          (dbInsertTags env p.TagStringArtist artist p.Id db0).1).1).1
  unfold dbTags4 seqOp
  refine ⟨g1.trans (c1.trans (b1.trans a1)), g2.trans (c2.trans (b2.trans a2)),
    g3.trans (c3.trans (b3.trans a3)),
    exists_append_trans (exists_append_trans (exists_append_trans ea4 eb4) ec4) eg4,
    exists_append_trans (exists_append_trans (exists_append_trans ea5 eb5) ec5) eg5, ?_⟩
  intro o ho
  simp only [List.nil_append, List.mem_append] at ho
  rcases ho with ((h | h) | h) | h
  · exact a6 o h
  · exact b6 o h
  · exact c6 o h
  · exact g6 o h

theorem dbTags4_content (p : Post) (db0 : Db) (hpost : db0.hasPost p.Id = true) :
    ∀ t ∈ allTagTokens p,
      (dbTags4 happyEnv p db0).1.hasTagName t = true ∧
      ∃ tid, (dbTags4 happyEnv p db0).1.lookupTag t = some tid ∧
        (tid, p.Id) ∈ (dbTags4 happyEnv p db0).1.tagged := by
  intro t hmem
  obtain ⟨a1, a2, a3, ea4, ea5, a6⟩ :=
    dbInsertTags_frame happyEnv p.TagStringArtist artist p.Id db0
  obtain ⟨b1, b2, b3, eb4, eb5, b6⟩ :=
    dbInsertTags_frame happyEnv p.TagStringCharacter character p.Id
      (dbInsertTags happyEnv p.TagStringArtist artist p.Id db0).1
  obtain ⟨c1, c2, c3, ec4, ec5, c6⟩ :=
    dbInsertTags_frame happyEnv p.TagStringCopyright copyright p.Id
      (dbInsertTags happyEnv p.TagStringCharacter character p.Id
        (dbInsertTags happyEnv p.TagStringArtist artist p.Id db0).1).1
  have hpost1 : (dbInsertTags happyEnv p.TagStringArtist artist p.Id db0).1.hasPost
      p.Id = true := hasPost_congr a1 hpost
  have hpost2 : (dbInsertTags happyEnv p.TagStringCharacter character p.Id
      (dbInsertTags happyEnv p.TagStringArtist artist p.Id db0).1).1.hasPost
      p.Id = true := hasPost_congr b1 hpost1
  have hpost3 : (dbInsertTags happyEnv p.TagStringCopyright copyright p.Id
      (dbInsertTags happyEnv p.TagStringCharacter character p.Id
        (dbInsertTags happyEnv p.TagStringArtist artist p.Id db0).1).1).1.hasPost
      p.Id = true := hasPost_congr c1 hpost2
  unfold allTagTokens at hmem
  unfold dbTags4 seqOp
  rcases List.mem_append.mp hmem with h3 | hG
  rcases List.mem_append.mp h3 with h2 | hC
  rcases List.mem_append.mp h2 with hA | hB
  · obtain ⟨x1, tid, x2, x3⟩ :=
      dbInsertTags_happy_content p.TagStringArtist artist p.Id db0 hpost t hA
    obtain ⟨y1, y2, y3⟩ := content_transfer eb4 eb5 x1 x2 x3
    obtain ⟨z1, z2, z3⟩ := content_transfer ec4 ec5 y1 y2 y3
    obtain ⟨w1, w2, w3⟩ := content_transfer
      (dbInsertTags_frame happyEnv p.TagStringGeneral general p.Id _).2.2.2.1
      (dbInsertTags_frame happyEnv p.TagStringGeneral general p.Id _).2.2.2.2.1 z1 z2 z3
    exact ⟨w1, tid, w2, w3⟩
  · obtain ⟨x1, tid, x2, x3⟩ :=
      dbInsertTags_happy_content p.TagStringCharacter character p.Id _ hpost1 t hB
    obtain ⟨z1, z2, z3⟩ := content_transfer ec4 ec5 x1 x2 x3
    obtain ⟨w1, w2, w3⟩ := content_transfer
      (dbInsertTags_frame happyEnv p.TagStringGeneral general p.Id _).2.2.2.1
      (dbInsertTags_frame happyEnv p.TagStringGeneral general p.Id _).2.2.2.2.1 z1 z2 z3
    exact ⟨w1, tid, w2, w3⟩
  · obtain ⟨x1, tid, x2, x3⟩ :=
      dbInsertTags_happy_content p.TagStringCopyright copyright p.Id _ hpost2 t hC
    obtain ⟨w1, w2, w3⟩ := content_transfer
      (dbInsertTags_frame happyEnv p.TagStringGeneral general p.Id _).2.2.2.1
      (dbInsertTags_frame happyEnv p.TagStringGeneral general p.Id _).2.2.2.2.1 x1 x2 x3
    exact ⟨w1, tid, w2, w3⟩
  · obtain ⟨x1, tid, x2, x3⟩ :=
      dbInsertTags_happy_content p.TagStringGeneral general p.Id _ hpost3 t hG
    exact ⟨x1, tid, x2, x3⟩

theorem hasPost_insertPost_self {db : Db} {p : Post} (h : db.hasPost p.Id = false) :
    (db.insertPost p).1.hasPost p.Id = true := by
  rw [insertPost_not_found h]
  simp [Db.hasPost, List.any_append]

theorem dbInsertRel_frame (env : Env) (p : Post) (db4 : Db) :
    (dbInsertRel env p db4).1.posts = db4.posts ∧
    (dbInsertRel env p db4).1.tags = db4.tags ∧
    (dbInsertRel env p db4).1.tagged = db4.tagged ∧
    (∃ l, (dbInsertRel env p db4).1.favorites = db4.favorites ++ l) ∧
    (∃ l, (dbInsertRel env p db4).1.pooled = db4.pooled ++ l) := by
  have hfav : (favCommitted env p db4).posts = db4.posts ∧
      (favCommitted env p db4).tags = db4.tags ∧
      (favCommitted env p db4).tagged = db4.tagged ∧
      (∃ l, (favCommitted env p db4).favorites = db4.favorites ++ l) ∧
      (favCommitted env p db4).pooled = db4.pooled := by
    unfold favCommitted favTx
    split
    · split
      · obtain ⟨q1, q2, q3, q4, ql, q5⟩ :=
          favLoop_frame env p.Id (splitSp p.FavString.data) 0 db4
        exact ⟨q1, q2, q3, ⟨ql, q5⟩, q4⟩
      · exact ⟨rfl, rfl, rfl, ⟨[], by simp⟩, rfl⟩
    · exact ⟨rfl, rfl, rfl, ⟨[], by simp⟩, rfl⟩
  have hpool : (poolCommitted env p (favCommitted env p db4)).posts =
      (favCommitted env p db4).posts ∧
      (poolCommitted env p (favCommitted env p db4)).tags =
        (favCommitted env p db4).tags ∧
      (poolCommitted env p (favCommitted env p db4)).tagged =
        (favCommitted env p db4).tagged ∧
      (poolCommitted env p (favCommitted env p db4)).favorites =
        (favCommitted env p db4).favorites ∧
      ∃ l, (poolCommitted env p (favCommitted env p db4)).pooled =
        (favCommitted env p db4).pooled ++ l := by
    unfold poolCommitted poolTx
    split
    · split
      · obtain ⟨q1, q2, q3, q4, ql, q5⟩ :=
          poolLoop_frame env p.Id (splitSp p.PoolString.data) 0 (favCommitted env p db4)
        exact ⟨q1, q2, q3, q4, ⟨ql, q5⟩⟩
      · exact ⟨rfl, rfl, rfl, rfl, ⟨[], by simp⟩⟩
    · exact ⟨rfl, rfl, rfl, rfl, ⟨[], by simp⟩⟩
  obtain ⟨f1, f2, f3, ef4, f5⟩ := hfav
  obtain ⟨p1, p2, p3, p4, ep5⟩ := hpool
  unfold dbInsertRel
  split
  · exact ⟨rfl, rfl, rfl, ⟨[], by simp⟩, ⟨[], by simp⟩⟩
  split
  · exact ⟨rfl, rfl, rfl, ⟨[], by simp⟩, ⟨[], by simp⟩⟩
  split
  · exact ⟨f1, f2, f3, ef4, ⟨[], by simp [f5]⟩⟩
  · refine ⟨p1.trans f1, p2.trans f2, p3.trans f3, ?_, ?_⟩
    · obtain ⟨l, e⟩ := ef4
      exact ⟨l, by rw [p4, e]⟩
    · obtain ⟨l, e⟩ := ep5
      exact ⟨l, by rw [e, f5]⟩

theorem insertPost_fields (db : Db) (p : Post) :
    (db.insertPost p).1.tags = db.tags ∧ (db.insertPost p).1.tagged = db.tagged ∧
    (db.insertPost p).1.favorites = db.favorites ∧
    (db.insertPost p).1.pooled = db.pooled := by
  unfold Db.insertPost
  split
  · exact ⟨rfl, rfl, rfl, rfl⟩
  · exact ⟨rfl, rfl, rfl, rfl⟩

theorem favTx_ops (env : Env) (p : Post) (db4 : Db) :
    ∀ o ∈ (favTx env p db4).2, o.isFavExec = true := by
  unfold favTx
  split
  · exact favLoop_ops env p.Id _ 0 db4
  · intro o ho
    simp at ho

theorem poolTx_ops (env : Env) (p : Post) (db5 : Db) :
    ∀ o ∈ (poolTx env p db5).2, o.isPoolExec = true := by
  unfold poolTx
  split
  · exact poolLoop_ops env p.Id _ 0 db5
  · intro o ho
    simp at ho

theorem tagSectionOp_props (o : Op) (h : isTagSectionOp o = true) :
    (o.isCommitAt TxSite.favs || o.isCommitAt TxSite.pools) = false ∧
    (o.isBeginAt TxSite.favs || o.isBeginAt TxSite.pools) = false ∧
    o.isFavExec = false ∧ o.isPoolExec = false := by
  cases o with
  | txBegin s =>
    cases s with
    | tagsNames => exact ⟨by decide, by decide, by decide, by decide⟩
    | tagsEdges => exact ⟨by decide, by decide, by decide, by decide⟩
    | favs => exact absurd h (by decide)
    | pools => exact absurd h (by decide)
  | txCommit s =>
    cases s with
    | tagsNames => exact ⟨by decide, by decide, by decide, by decide⟩
    | tagsEdges => exact ⟨by decide, by decide, by decide, by decide⟩
    | favs => exact absurd h (by decide)
    | pools => exact absurd h (by decide)
  | execInsertPost a b => exact ⟨rfl, rfl, rfl, rfl⟩
  | execInsertTag a b c => exact ⟨rfl, rfl, rfl, rfl⟩
  | queryTagId a => exact ⟨rfl, rfl, rfl, rfl⟩
  | execInsertTagged a b c => exact ⟨rfl, rfl, rfl, rfl⟩
  | execInsertFav a b c => simp [isTagSectionOp] at h
  | execInsertPool a b c => simp [isTagSectionOp] at h

theorem favExecOp_props (o : Op) (h : o.isFavExec = true) :
    (o.isCommitAt TxSite.favs || o.isCommitAt TxSite.pools) = false ∧
    (o.isBeginAt TxSite.favs || o.isBeginAt TxSite.pools) = false := by
  cases o with
  | execInsertFav a b c => exact ⟨rfl, rfl⟩
  | txBegin s => simp [Op.isFavExec] at h
  | txCommit s => simp [Op.isFavExec] at h
  | execInsertPost a b => simp [Op.isFavExec] at h
  | execInsertTag a b c => simp [Op.isFavExec] at h
  | queryTagId a => simp [Op.isFavExec] at h
  | execInsertTagged a b c => simp [Op.isFavExec] at h
  | execInsertPool a b c => simp [Op.isFavExec] at h

theorem poolExecOp_props (o : Op) (h : o.isPoolExec = true) :
    (o.isCommitAt TxSite.favs || o.isCommitAt TxSite.pools) = false ∧
    (o.isBeginAt TxSite.favs || o.isBeginAt TxSite.pools) = false := by
  cases o with
  | execInsertPool a b c => exact ⟨rfl, rfl⟩
  | txBegin s => simp [Op.isPoolExec] at h
  | txCommit s => simp [Op.isPoolExec] at h
  | execInsertPost a b => simp [Op.isPoolExec] at h
  | execInsertTag a b c => simp [Op.isPoolExec] at h
  | queryTagId a => simp [Op.isPoolExec] at h
  | execInsertTagged a b c => simp [Op.isPoolExec] at h
  | execInsertFav a b c => simp [Op.isPoolExec] at h

theorem favTrace_counts (env : Env) (p : Post) (db4 : Db) :
    favPoolCommitCount (favTrace env p db4) = 1 ∧
    favPoolBeginCount (favTrace env p db4) = 1 := by
  have h0c : (favTx env p db4).2.countP
      (fun o => o.isCommitAt TxSite.favs || o.isCommitAt TxSite.pools) = 0 := by
    rw [List.countP_eq_zero]
    intro o ho
    simp [(favExecOp_props o (favTx_ops env p db4 o ho)).1]
  have h0b : (favTx env p db4).2.countP
      (fun o => o.isBeginAt TxSite.favs || o.isBeginAt TxSite.pools) = 0 := by
    rw [List.countP_eq_zero]
    intro o ho
    simp [(favExecOp_props o (favTx_ops env p db4 o ho)).2]
  unfold favTrace favPoolCommitCount favPoolBeginCount
  constructor
  · simp only [List.countP_cons, List.countP_append, h0c]
    decide
  · simp only [List.countP_cons, List.countP_append, h0b]
    decide

theorem poolTrace_counts (env : Env) (p : Post) (db5 : Db) :
    favPoolCommitCount (poolTrace env p db5) = 1 ∧
    favPoolBeginCount (poolTrace env p db5) = 1 := by
  have h0c : (poolTx env p db5).2.countP
      (fun o => o.isCommitAt TxSite.favs || o.isCommitAt TxSite.pools) = 0 := by
    rw [List.countP_eq_zero]
    intro o ho
    simp [(poolExecOp_props o (poolTx_ops env p db5 o ho)).1]
  have h0b : (poolTx env p db5).2.countP
      (fun o => o.isBeginAt TxSite.favs || o.isBeginAt TxSite.pools) = 0 := by
    rw [List.countP_eq_zero]
    intro o ho
    simp [(poolExecOp_props o (poolTx_ops env p db5 o ho)).2]
  unfold poolTrace favPoolCommitCount favPoolBeginCount
  constructor
  · simp only [List.countP_cons, List.countP_append, h0c]
    decide
  · simp only [List.countP_cons, List.countP_append, h0b]
    decide

theorem dbInsertRel_counts (env : Env) (p : Post) (db4 : Db)
    (hskip : ((trimSpace p.FavString.data).isEmpty &&
      (trimSpace p.PoolString.data).isEmpty) = false)
    (hfb : env.favBeginOk = true) (hpb : env.poolBeginOk = true) :
    favPoolBeginCount (dbInsertRel env p db4).2 = 2 ∧
    favPoolCommitCount (dbInsertRel env p db4).2 = 2 := by
  have htr : (dbInsertRel env p db4).2 =
      favTrace env p db4 ++ poolTrace env p (favCommitted env p db4) := by
    unfold dbInsertRel
    rw [if_neg (by simp [hskip]), if_neg (by simp [hfb]), if_neg (by simp [hpb])]
  rw [htr]
  unfold favPoolBeginCount favPoolCommitCount
  rw [List.countP_append, List.countP_append]
  have hf := favTrace_counts env p db4
  have hq := poolTrace_counts env p (favCommitted env p db4)
  unfold favPoolCommitCount favPoolBeginCount at hf hq
  omega

theorem dbInsertRel_happy (p : Post) (db4 : Db) (hpost : db4.hasPost p.Id = true) :
    (∀ uid ∈ favIds p, (uid, p.Id) ∈ (dbInsertRel happyEnv p db4).1.favorites) ∧
    (∀ plid ∈ poolIds p, (plid, p.Id) ∈ (dbInsertRel happyEnv p db4).1.pooled) := by
  cases hskip : (trimSpace p.FavString.data).isEmpty &&
      (trimSpace p.PoolString.data).isEmpty with
  | true =>
    constructor
    · intro uid h
      rw [favIds, if_pos hskip] at h
      simp at h
    · intro plid h
      rw [poolIds, if_pos hskip] at h
      simp at h
  | false =>
    have hfavEq : favCommitted happyEnv p db4 =
        (favLoop happyEnv p.Id 0 (splitSp p.FavString.data) db4).1 := by
      unfold favCommitted favTx
      rw [if_pos (show happyEnv.favCommitOk = true from rfl),
        if_pos (show happyEnv.favPrepOk = true from rfl)]
    have hpoolEq : poolCommitted happyEnv p (favCommitted happyEnv p db4) =
        (poolLoop happyEnv p.Id 0 (splitSp p.PoolString.data)
          (favCommitted happyEnv p db4)).1 := by
      unfold poolCommitted poolTx
      rw [if_pos (show happyEnv.poolCommitOk = true from rfl),
        if_pos (show happyEnv.poolPrepOk = true from rfl)]
    have hrel : (dbInsertRel happyEnv p db4).1 =
        poolCommitted happyEnv p (favCommitted happyEnv p db4) := by
      unfold dbInsertRel
      rw [if_neg (by simp [hskip]), if_neg (by decide), if_neg (by decide)]
    constructor
    · intro uid h
      rw [favIds, if_neg (by simp [hskip])] at h
      unfold favTokenIds at h
      have hmemF : (uid, p.Id) ∈ (favCommitted happyEnv p db4).favorites := by
        rw [hfavEq]
        exact favLoop_mem happyEnv p.Id (fun _ => rfl) _ 0 db4 hpost uid h
      have hpres : (poolCommitted happyEnv p (favCommitted happyEnv p db4)).favorites =
          (favCommitted happyEnv p db4).favorites := by
        rw [hpoolEq]
        exact (poolLoop_frame happyEnv p.Id _ 0 _).2.2.2.1
      rw [hrel, hpres]
      exact hmemF
    · intro plid h
      rw [poolIds, if_neg (by simp [hskip])] at h
      unfold poolTokenIds at h
      have hpostF : (favCommitted happyEnv p db4).hasPost p.Id = true := by
        rw [hfavEq]
        exact hasPost_congr (favLoop_frame happyEnv p.Id _ 0 db4).1 hpost
      rw [hrel, hpoolEq]
      exact poolLoop_mem happyEnv p.Id (fun _ => rfl) _ 0 _ hpostF plid h

theorem dbInsert_found (env : Env) {p : Post} {db : Db} (h : db.hasPost p.Id = true)
    (hpe : env.postExecFails = false) :
    dbInsert env p db = (db, [Op.execInsertPost p.Id true]) := by
  unfold dbInsert
  rw [if_pos (by simp [hpe, insertPost_found h])]

theorem dbInsert_hasPost_self (env : Env) (p : Post) (db : Db)
    (h : db.hasPost p.Id = false) (hpe : env.postExecFails = false) :
    (dbInsert env p db).1.hasPost p.Id = true := by
  unfold dbInsert
  rw [if_neg (by simp [hpe, insertPost_not_found h])]
  exact hasPost_congr (dbInsertRel_frame env p _).1
    (hasPost_congr (dbTags4_frame env p _).1 (hasPost_insertPost_self h))

theorem tagInsertLoop_args_none (env : Env) (cat : String) (ts : List (List Char)) :
    ∀ (i : Nat) (st : Db), ∀ o ∈ (tagInsertLoop env cat i ts st).2,
      Op.taggedArgs o = none := by
  induction ts with
  | nil => intro i st o ho; simp [tagInsertLoop] at ho
  | cons t rest ih =>
    intro i st o ho
    simp only [tagInsertLoop] at ho
    rcases List.mem_cons.mp ho with h | h
    · subst h; rfl
    · exact ih (i + 1) _ o h

theorem tagsTr1_args_none (env : Env) (tags cat : String) (db : Db) :
    (tagsTr1 env tags cat db).filterMap Op.taggedArgs = [] := by
  rw [List.filterMap_eq_nil_iff]
  intro o ho
  unfold tagsTr1 at ho
  rcases List.mem_cons.mp ho with h | h
  · subst h; rfl
  · rcases List.mem_append.mp h with h2 | h2
    · revert h2
      unfold tagsTx1
      split
      · exact fun h2 => tagInsertLoop_args_none env cat _ 0 db o h2
      · intro h2; simp at h2
    · rw [List.mem_singleton] at h2
      subst h2; rfl

/-- Counterexample to C2: running `dbInsert` twice on the same post is NOT
free of duplicate-key failures — the `posts` insert has no ON CONFLICT
clause, so the second run's insert fails on the primary key (the `true` flag),
is logged, and aborts the rest of the second run. -/
theorem dbInsert_twice_raises_duplicate_key :
    (dbInsert happyEnv pC2 (dbInsert happyEnv pC2 emptyDb).1).2 =
      [Op.execInsertPost 1 true] ∧
    (dbInsert happyEnv pC2 (dbInsert happyEnv pC2 emptyDb).1).2.countP
      (fun o => match o with
        | Op.execInsertPost _ failed => failed
        | _ => false) = 1 := by
  constructor
  · decide
  · decide

/-- C2 as amended: for a well-formed store without the post's row, running
`dbInsert(p)` twice leaves the same state as one run — a state whose primary
keys all still hold (so exactly one posts row, one tags row per distinct name,
one edge per distinct pair) and which contains the post row, every tag with
its (tag, post) edge, and every parsed favorite/pool edge.  The second run,
however, raises a duplicate-key failure on the posts insert (trace
`[execInsertPost p.Id true]`) and returns early; only tag/edge inserts are
conflict-free. -/
theorem dbInsert_twice_idempotent_amended (p : Post) (db : Db) (hwf : db.Wf)
    (hnew : db.hasPost p.Id = false) :
    dbInsert happyEnv p (dbInsert happyEnv p db).1 =
      ((dbInsert happyEnv p db).1, [Op.execInsertPost p.Id true]) ∧
    (dbInsert happyEnv p db).1.Wf ∧
    (dbInsert happyEnv p db).1.hasPost p.Id = true ∧
    (∀ t ∈ allTagTokens p,
      (dbInsert happyEnv p db).1.hasTagName t = true ∧
      ∃ tid, (dbInsert happyEnv p db).1.lookupTag t = some tid ∧
        (tid, p.Id) ∈ (dbInsert happyEnv p db).1.tagged) ∧
    (∀ uid ∈ favIds p, (uid, p.Id) ∈ (dbInsert happyEnv p db).1.favorites) ∧
    (∀ plid ∈ poolIds p, (plid, p.Id) ∈ (dbInsert happyEnv p db).1.pooled) := by
  have hpe : happyEnv.postExecFails = false := rfl
  have h3 : (dbInsert happyEnv p db).1.hasPost p.Id = true :=
    dbInsert_hasPost_self happyEnv p db hnew hpe
  have heq : (dbInsert happyEnv p db).1 =
      (dbInsertRel happyEnv p (dbTags4 happyEnv p (db.insertPost p).1).1).1 := by
    unfold dbInsert
    rw [if_neg (by simp [hpe, insertPost_not_found hnew])]
  have hpost0 : (db.insertPost p).1.hasPost p.Id = true := hasPost_insertPost_self hnew
  have hpost4 : (dbTags4 happyEnv p (db.insertPost p).1).1.hasPost p.Id = true :=
    hasPost_congr (dbTags4_frame happyEnv p _).1 hpost0
  obtain ⟨r1, r2, r3, _, _⟩ :=
    dbInsertRel_frame happyEnv p (dbTags4 happyEnv p (db.insertPost p).1).1
  refine ⟨dbInsert_found happyEnv h3 hpe, dbInsert_wf happyEnv p db hwf, h3, ?_, ?_, ?_⟩
  · intro t hm
    obtain ⟨x1, tid, x2, x3⟩ := dbTags4_content p (db.insertPost p).1 hpost0 t hm
    rw [heq]
    exact ⟨hasTagName_congr r2 x1, tid, lookupTag_congr r2 x2, by rw [r3]; exact x3⟩
  · intro uid hm
    rw [heq]
    exact (dbInsertRel_happy p _ hpost4).1 uid hm
  · intro plid hm
    rw [heq]
    exact (dbInsertRel_happy p _ hpost4).2 plid hm

/-- Witness for C2 (amended) at a concrete post and the empty store. -/
theorem dbInsert_twice_idempotent_amended_witness :
    (emptyDb.Wf ∧ emptyDb.hasPost pC2.Id = false) ∧
    dbInsert happyEnv pC2 (dbInsert happyEnv pC2 emptyDb).1 =
      ((dbInsert happyEnv pC2 emptyDb).1, [Op.execInsertPost pC2.Id true]) :=
  ⟨⟨by decide, by decide⟩,
    (dbInsert_twice_idempotent_amended pC2 emptyDb (by decide) (by decide)).1⟩

/-- C6: in `dbInsertTags`, tag creation is committed in a first transaction
before a second transaction builds the edges, so when the first transaction
went through, every tag row is present in the final state whatever happens in
the second transaction (including edge-insert failures and a failed second
commit); the post rows are untouched; and when the second transaction goes
through with working lookups, every edge whose insert did not fail is present
alongside the failed one's tag. -/
theorem dbInsertTags_partial_failure_isolation (env : Env) (tags cat : String)
    (pid : Int) (db : Db) (ht : trimSpace tags.data ≠ [])
    (hb1 : env.tagsBegin1Ok = true) (hp1 : env.tagsPrepInsOk = true)
    (hc1 : env.tagsCommit1Ok = true) (hAll : ∀ j, env.tagExecFails j = false) :
    (∀ t ∈ splitSp tags.data,
      (dbInsertTags env tags cat pid db).1.hasTagName t = true) ∧
    (dbInsertTags env tags cat pid db).1.posts = db.posts ∧
    (env.tagsBegin2Ok = true → env.tagsPrepQueryOk = true →
      env.tagsPrepEdgeOk = true → env.tagsCommit2Ok = true →
      (∀ j, env.lookupFails j = false) → db.hasPost pid = true →
      ((dbInsertTags env tags cat pid db).2 =
        tagsTr1 env tags cat db ++ tagsTr2 env tags cat pid db) ∧
      ∀ (i : Nat) (t : List Char), (splitSp tags.data).get? i = some t →
        env.edgeExecFails i = false →
        ∃ tid, (dbInsertTags env tags cat pid db).1.lookupTag t = some tid ∧
          (tid, pid) ∈ (dbInsertTags env tags cat pid db).1.tagged) := by
  refine ⟨dbInsertTags_tagsPresent env tags cat pid db ht hb1 hp1 hc1 hAll,
    (dbInsertTags_frame env tags cat pid db).1, ?_⟩
  intro hb2 hpq hpe hc2 hlk hpost
  have hred : dbInsertTags env tags cat pid db =
      ((tagsTx2 env pid (splitSp tags.data)
          (tagsTx1 env cat (splitSp tags.data) db).1).1,
        tagsTr1 env tags cat db ++ tagsTr2 env tags cat pid db) := by
    unfold dbInsertTags
    rw [if_neg ht, if_neg (by simp [hb1]), if_neg (by simp [hc1]),
      if_neg (by simp [hb2]), if_pos hc2]
  constructor
  · rw [hred]
  · intro i t hget hedge
    have h1 : (tagsTx1 env cat (splitSp tags.data) db).1.hasTagName t = true := by
      unfold tagsTx1
      rw [if_pos hp1]
      exact tagInsertLoop_hasAll env cat hAll _ 0 db t (List.get?_mem hget)
    have hpost1 : (tagsTx1 env cat (splitSp tags.data) db).1.hasPost pid = true :=
      hasPost_congr (tagsTx1_frame env cat (splitSp tags.data) db).1 hpost
    have htx2eq : tagsTx2 env pid (splitSp tags.data)
        (tagsTx1 env cat (splitSp tags.data) db).1 =
        tagEdgeLoop env pid 0 (splitSp tags.data)
          (tagsTx1 env cat (splitSp tags.data) db).1 := by
      unfold tagsTx2
      rw [if_pos (by simp [hpq, hpe])]
    obtain ⟨tid, hlkup, hmm⟩ := tagEdgeLoop_mem_idx env pid hlk (splitSp tags.data) 0
      (tagsTx1 env cat (splitSp tags.data) db).1 hpost1 i t hget
      (by rwa [Nat.zero_add]) h1
    rw [hred, htx2eq]
    exact ⟨tid, lookupTag_congr (tagEdgeLoop_frame env pid (splitSp tags.data) 0
      (tagsTx1 env cat (splitSp tags.data) db).1).2.1 hlkup, hmm⟩

/-- Witness for C6: edge insert 0 fails, yet both tag rows exist afterwards. -/
theorem dbInsertTags_partial_failure_isolation_witness :
    (trimSpace "aaa bbb".data ≠ [] ∧ dbPost5.hasPost 5 = true) ∧
    ∀ t ∈ splitSp "aaa bbb".data,
      (dbInsertTags envEdgeFail0 "aaa bbb" general 5 dbPost5).1.hasTagName t = true :=
  ⟨⟨by decide, by decide⟩,
    (dbInsertTags_partial_failure_isolation envEdgeFail0 "aaa bbb" general 5 dbPost5
      (by decide) rfl rfl rfl (fun _ => rfl)).1⟩

/-- Counterexample to C7: for a post with favorites and pools, the revision
with `scrapeRange` runs TWO separate transactions with TWO commits at the
favorites/pools sites — not one single transaction with exactly one commit. -/
theorem dbInsert_favpool_two_commits :
    favPoolCommitCount (dbInsert happyEnv pFav emptyDb).2 = 2 ∧
    favPoolBeginCount (dbInsert happyEnv pFav emptyDb).2 = 2 ∧
    ¬ favPoolCommitCount (dbInsert happyEnv pFav emptyDb).2 = 1 := by
  refine ⟨?_, ?_, ?_⟩ <;> decide

/-- C7 as amended: when the post row was inserted and the favorites or pool
string is nonempty after trimming, `dbInsert` opens one transaction for the
favorite edges and commits it, then a second transaction for the pool edges
and commits that — two begins and two commits at those sites in total — and
each `fav:<id>` / `pool:<id>` token parses to an edge that is present
afterwards, inserted with ON CONFLICT DO NOTHING (no duplicate rows: the
primary keys are preserved). -/
theorem dbInsert_favpool_amended (p : Post) (db : Db)
    (hnew : db.hasPost p.Id = false)
    (hne : ((trimSpace p.FavString.data).isEmpty &&
      (trimSpace p.PoolString.data).isEmpty) = false) :
    favPoolBeginCount (dbInsert happyEnv p db).2 = 2 ∧
    favPoolCommitCount (dbInsert happyEnv p db).2 = 2 ∧
    (∀ uid ∈ favTokenIds p.FavString,
      (uid, p.Id) ∈ (dbInsert happyEnv p db).1.favorites) ∧
    (∀ plid ∈ poolTokenIds p.PoolString,
      (plid, p.Id) ∈ (dbInsert happyEnv p db).1.pooled) ∧
    (db.Wf → (dbInsert happyEnv p db).1.Wf) := by
  have hpe : happyEnv.postExecFails = false := rfl
  have htr : (dbInsert happyEnv p db).2 =
      Op.execInsertPost p.Id false :: (dbTags4 happyEnv p (db.insertPost p).1).2 ++
        (dbInsertRel happyEnv p (dbTags4 happyEnv p (db.insertPost p).1).1).2 := by
    unfold dbInsert
    rw [if_neg (by simp [hpe, insertPost_not_found hnew])]
  have heq : (dbInsert happyEnv p db).1 =
      (dbInsertRel happyEnv p (dbTags4 happyEnv p (db.insertPost p).1).1).1 := by
    unfold dbInsert
    rw [if_neg (by simp [hpe, insertPost_not_found hnew])]
  have hz := (dbTags4_frame happyEnv p (db.insertPost p).1).2.2.2.2.2
  have hc0 : (dbTags4 happyEnv p (db.insertPost p).1).2.countP
      (fun o => o.isCommitAt TxSite.favs || o.isCommitAt TxSite.pools) = 0 := by
    rw [List.countP_eq_zero]
    intro o ho
    simp [(tagSectionOp_props o (hz o ho)).1]
  have hb0 : (dbTags4 happyEnv p (db.insertPost p).1).2.countP
      (fun o => o.isBeginAt TxSite.favs || o.isBeginAt TxSite.pools) = 0 := by
    rw [List.countP_eq_zero]
    intro o ho
    simp [(tagSectionOp_props o (hz o ho)).2.1]
  have hrel := dbInsertRel_counts happyEnv p (dbTags4 happyEnv p (db.insertPost p).1).1
    hne rfl rfl
  unfold favPoolBeginCount favPoolCommitCount at hrel ⊢
  have hpost0 : (db.insertPost p).1.hasPost p.Id = true := hasPost_insertPost_self hnew
  have hpost4 : (dbTags4 happyEnv p (db.insertPost p).1).1.hasPost p.Id = true :=
    hasPost_congr (dbTags4_frame happyEnv p _).1 hpost0
  have hcontent := dbInsertRel_happy p (dbTags4 happyEnv p (db.insertPost p).1).1 hpost4
  have hfavIds : favIds p = favTokenIds p.FavString := by
    unfold favIds
    rw [if_neg (by simp [hne])]
  have hpoolIds : poolIds p = poolTokenIds p.PoolString := by
    unfold poolIds
    rw [if_neg (by simp [hne])]
  rw [hfavIds] at hcontent
  rw [hpoolIds] at hcontent
  refine ⟨?_, ?_, ?_, ?_, fun hwf => dbInsert_wf happyEnv p db hwf⟩
  · rw [htr]
    have hhead : ((Op.execInsertPost p.Id false).isBeginAt TxSite.favs ||
        (Op.execInsertPost p.Id false).isBeginAt TxSite.pools) = false := rfl
    simp only [List.countP_cons, List.countP_append, hb0, hrel.1, hhead,
      Bool.false_eq_true, if_false]
  · rw [htr]
    have hhead : ((Op.execInsertPost p.Id false).isCommitAt TxSite.favs ||
        (Op.execInsertPost p.Id false).isCommitAt TxSite.pools) = false := rfl
    simp only [List.countP_cons, List.countP_append, hc0, hrel.2, hhead,
      Bool.false_eq_true, if_false]
  · intro uid hm
    rw [heq]
    exact hcontent.1 uid hm
  · intro plid hm
    rw [heq]
    exact hcontent.2 plid hm

/-- Witness for C7 (amended) at a concrete post with one favorite and one
pool. -/
theorem dbInsert_favpool_amended_witness :
    (emptyDb.hasPost pFav.Id = false ∧
      ((trimSpace pFav.FavString.data).isEmpty &&
        (trimSpace pFav.PoolString.data).isEmpty) = false) ∧
    favPoolBeginCount (dbInsert happyEnv pFav emptyDb).2 = 2 :=
  ⟨⟨by decide, by decide⟩,
    (dbInsert_favpool_amended pFav emptyDb (by decide) (by decide)).1⟩

/-- C8: when both the favorites string and the pool string trim to empty,
`dbInsert` leaves the `favorites` and `pooled` tables untouched and issues no
transaction and no edge insert at the favorites/pools sites; likewise
`dbInsertTags` on a string that trims to empty performs no database operation
at all. -/
theorem dbInsert_empty_rel_skip (env : Env) (p : Post) (db : Db)
    (hfav : trimSpace p.FavString.data = []) (hpool : trimSpace p.PoolString.data = []) :
    (dbInsert env p db).1.favorites = db.favorites ∧
    (dbInsert env p db).1.pooled = db.pooled ∧
    favPoolBeginCount (dbInsert env p db).2 = 0 ∧
    favPoolCommitCount (dbInsert env p db).2 = 0 ∧
    (dbInsert env p db).2.countP Op.isFavExec = 0 ∧
    (dbInsert env p db).2.countP Op.isPoolExec = 0 ∧
    (∀ (env' : Env) (ts cat : String) (pid : Int) (db' : Db),
      trimSpace ts.data = [] → dbInsertTags env' ts cat pid db' = (db', [])) := by
  have hlast : ∀ (env' : Env) (ts cat : String) (pid : Int) (db' : Db),
      trimSpace ts.data = [] → dbInsertTags env' ts cat pid db' = (db', []) := by
    intro env' ts cat pid db' h
    unfold dbInsertTags
    rw [if_pos h]
  unfold dbInsert
  split
  · refine ⟨rfl, rfl, ?_, ?_, ?_, ?_, hlast⟩
    · have hh : ((Op.execInsertPost p.Id true).isBeginAt TxSite.favs ||
          (Op.execInsertPost p.Id true).isBeginAt TxSite.pools) = false := rfl
      unfold favPoolBeginCount
      simp only [List.countP_cons, List.countP_nil, hh, Bool.false_eq_true, if_false]
    · have hh : ((Op.execInsertPost p.Id true).isCommitAt TxSite.favs ||
          (Op.execInsertPost p.Id true).isCommitAt TxSite.pools) = false := rfl
      unfold favPoolCommitCount
      simp only [List.countP_cons, List.countP_nil, hh, Bool.false_eq_true, if_false]
    · have hh : (Op.execInsertPost p.Id true).isFavExec = false := rfl
      simp only [List.countP_cons, List.countP_nil, hh, Bool.false_eq_true, if_false]
    · have hh : (Op.execInsertPost p.Id true).isPoolExec = false := rfl
      simp only [List.countP_cons, List.countP_nil, hh, Bool.false_eq_true, if_false]
  · have hskip : ((trimSpace p.FavString.data).isEmpty &&
        (trimSpace p.PoolString.data).isEmpty) = true := by
      rw [hfav, hpool]
      rfl
    have hrel : dbInsertRel env p (dbTags4 env p (db.insertPost p).1).1 =
        ((dbTags4 env p (db.insertPost p).1).1, []) := by
      unfold dbInsertRel
      rw [if_pos hskip]
    obtain ⟨t1, t2, t3, _, _, t6⟩ := dbTags4_frame env p (db.insertPost p).1
    obtain ⟨q1, q2, q3, q4⟩ := insertPost_fields db p
    have hb0 : (dbTags4 env p (db.insertPost p).1).2.countP
        (fun o => o.isBeginAt TxSite.favs || o.isBeginAt TxSite.pools) = 0 := by
      rw [List.countP_eq_zero]
      intro o ho
      simp [(tagSectionOp_props o (t6 o ho)).2.1]
    have hc0 : (dbTags4 env p (db.insertPost p).1).2.countP
        (fun o => o.isCommitAt TxSite.favs || o.isCommitAt TxSite.pools) = 0 := by
      rw [List.countP_eq_zero]
      intro o ho
      simp [(tagSectionOp_props o (t6 o ho)).1]
    have hf0 : (dbTags4 env p (db.insertPost p).1).2.countP Op.isFavExec = 0 := by
      rw [List.countP_eq_zero]
      intro o ho
      simp [(tagSectionOp_props o (t6 o ho)).2.2.1]
    have hp0 : (dbTags4 env p (db.insertPost p).1).2.countP Op.isPoolExec = 0 := by
      rw [List.countP_eq_zero]
      intro o ho
      simp [(tagSectionOp_props o (t6 o ho)).2.2.2]
    rw [hrel]
    refine ⟨t2.trans q3, t3.trans q4, ?_, ?_, ?_, ?_, hlast⟩
    · have hh : ((Op.execInsertPost p.Id false).isBeginAt TxSite.favs ||
          (Op.execInsertPost p.Id false).isBeginAt TxSite.pools) = false := rfl
      unfold favPoolBeginCount
      simp only [List.countP_cons, List.countP_append, List.countP_nil, hb0, hh,
        Bool.false_eq_true, if_false]
    · have hh : ((Op.execInsertPost p.Id false).isCommitAt TxSite.favs ||
          (Op.execInsertPost p.Id false).isCommitAt TxSite.pools) = false := rfl
      unfold favPoolCommitCount
      simp only [List.countP_cons, List.countP_append, List.countP_nil, hc0, hh,
        Bool.false_eq_true, if_false]
    · have hh : (Op.execInsertPost p.Id false).isFavExec = false := rfl
      simp only [List.countP_cons, List.countP_append, List.countP_nil, hf0, hh,
        Bool.false_eq_true, if_false]
    · have hh : (Op.execInsertPost p.Id false).isPoolExec = false := rfl
      simp only [List.countP_cons, List.countP_append, List.countP_nil, hp0, hh,
        Bool.false_eq_true, if_false]

/-- Witness for C8 at a post whose favorites string is whitespace only. -/
theorem dbInsert_empty_rel_skip_witness :
    (trimSpace pNoRel.FavString.data = [] ∧ trimSpace pNoRel.PoolString.data = []) ∧
    ((dbInsert happyEnv pNoRel emptyDb).1.favorites = emptyDb.favorites ∧
      favPoolBeginCount (dbInsert happyEnv pNoRel emptyDb).2 = 0) :=
  ⟨⟨by decide, by decide⟩,
    ⟨(dbInsert_empty_rel_skip happyEnv pNoRel emptyDb (by decide) (by decide)).1,
      (dbInsert_empty_rel_skip happyEnv pNoRel emptyDb (by decide) (by decide)).2.2.1⟩⟩

/-- Counterexample to C10: with tags `aaa` (id 7) and `bbb` (id 9) already in
the store, failing the second lookup makes the second edge insert run with
tag id 0 — the int zero value, because `tagId` is redeclared each iteration —
not with 7, the previous iteration's tag id as the claim states. -/
theorem dbInsertTags_lookup_failure_zero_not_previous :
    ((dbInsertTags envLookupFail1 "aaa bbb" general 5 dbTwoTags).2.filterMap
      Op.taggedArgs).get? 0 = some (7, 5) ∧
    ((dbInsertTags envLookupFail1 "aaa bbb" general 5 dbTwoTags).2.filterMap
      Op.taggedArgs).get? 1 = some (0, 5) ∧
    ¬ ((dbInsertTags envLookupFail1 "aaa bbb" general 5 dbTwoTags).2.filterMap
      Op.taggedArgs).get? 1 = some (7, 5) := by
  refine ⟨?_, ?_, ?_⟩ <;> decide

/-- C10 as amended: in `dbInsertTags`, the edge insert is executed for every
token (one `tagged` insert per token, none skipped), and whenever the tag-id
lookup fails at iteration `i` the statement runs with tag id 0 — the zero
value of the freshly declared `tagId` variable — on every such iteration, not
the previous iteration's id. -/
theorem dbInsertTags_lookup_failure_executes_zero (env : Env) (tags cat : String)
    (pid : Int) (db : Db) (ht : trimSpace tags.data ≠ [])
    (hb1 : env.tagsBegin1Ok = true) (hc1 : env.tagsCommit1Ok = true)
    (hb2 : env.tagsBegin2Ok = true) (hpq : env.tagsPrepQueryOk = true)
    (hpe : env.tagsPrepEdgeOk = true) :
    ((dbInsertTags env tags cat pid db).2.filterMap Op.taggedArgs).length =
      (splitSp tags.data).length ∧
    ∀ (i : Nat) (t : List Char), (splitSp tags.data).get? i = some t →
      env.lookupFails i = true →
      ((dbInsertTags env tags cat pid db).2.filterMap Op.taggedArgs).get? i =
        some (0, pid) := by
  have htr : (dbInsertTags env tags cat pid db).2 =
      tagsTr1 env tags cat db ++ tagsTr2 env tags cat pid db := by
    unfold dbInsertTags
    rw [if_neg ht, if_neg (by simp [hb1]), if_neg (by simp [hc1]),
      if_neg (by simp [hb2])]
  have htx2eq : tagsTx2 env pid (splitSp tags.data)
      (tagsTx1 env cat (splitSp tags.data) db).1 =
      tagEdgeLoop env pid 0 (splitSp tags.data)
        (tagsTx1 env cat (splitSp tags.data) db).1 := by
    unfold tagsTx2
    rw [if_pos (by simp [hpq, hpe])]
  have h2 : (tagsTr2 env tags cat pid db).filterMap Op.taggedArgs =
      (tagEdgeLoop env pid 0 (splitSp tags.data)
        (tagsTx1 env cat (splitSp tags.data) db).1).2.filterMap Op.taggedArgs := by
    unfold tagsTr2
    rw [htx2eq]
    simp [List.filterMap_cons, List.filterMap_append, Op.taggedArgs]
  have hargs := tagEdgeLoop_trace_args env pid (splitSp tags.data) 0
    (tagsTx1 env cat (splitSp tags.data) db).1
  rw [htr, List.filterMap_append, tagsTr1_args_none, List.nil_append, h2]
  refine ⟨hargs.1, ?_⟩
  intro i t hget hfail
  exact hargs.2 i t hget (by rwa [Nat.zero_add])

/-- Witness for C10 (amended) at the two-tag store with the second lookup
failing. -/
theorem dbInsertTags_lookup_failure_executes_zero_witness :
    (trimSpace "aaa bbb".data ≠ [] ∧ envLookupFail1.lookupFails 1 = true) ∧
    ((dbInsertTags envLookupFail1 "aaa bbb" general 5 dbTwoTags).2.filterMap
      Op.taggedArgs).get? 1 = some (0, 5) :=
  ⟨⟨by decide, by decide⟩,
    (dbInsertTags_lookup_failure_executes_zero envLookupFail1 "aaa bbb" general 5
      dbTwoTags (by decide) rfl rfl rfl rfl rfl).2 1 "bbb".data (by decide) (by decide)⟩
